import Mathlib

/-!
Verification development for `scripts/download_opinions.py`: a CourtListener
corpus downloader consisting of a retrying HTTP layer (`request_with_retry`),
a cursor-paginated search client (`search_opinions`), a single-file
downloader (`download_pdf`) and a resumable bulk sync loop
(`download_corpus`).

The Python code is shallowly embedded: network outcomes are supplied as
explicit input streams, the filesystem is a list of file stems, sleeps are
recorded rather than performed, and float delays are modelled as rationals
(all delay arithmetic in the script stays within dyadic rationals, where
Python float arithmetic is exact).
-/

set_option autoImplicit false

namespace DownloadOpinions

/-! ## Configuration constants (module-level constants of the script) -/

def BASE_DELAY_SECONDS : ℚ := 3

def MAX_RETRIES : ℕ := 8

def BACKOFF_FACTOR : ℚ := 5 / 2

def MAX_BACKOFF_SECONDS : ℚ := 300

/-! ## Backoff requester (`request_with_retry`)

One attempt of the `for attempt in range(MAX_RETRIES + 1)` loop observes one
`AttemptResult`: an HTTP response with a status code (and, for 429
responses, an optional `Retry-After` header), or an exception from the
transport.  The header is modelled post-parsing: `none` means no header (or
a falsy empty header), `some none` a header that `float()` rejects with
`ValueError`, `some (some v)` a header parsing to the number `v`. -/

inductive AttemptResult where
  /-- `client.get` returned a response with this status code;
  `retryAfter` models the `Retry-After` header read on 429 responses. -/
  | response (status : ℕ) (retryAfter : Option (Option ℚ))
  /-- `httpx.TimeoutException` raised by the transport. -/
  | timeout
  /-- any other `httpx.RequestError` (connection error etc.). -/
  | requestError
  deriving DecidableEq

/-- The errors `request_with_retry` can raise: `httpx.HTTPStatusError`
carrying a status (from the 429/5xx tracking or from `raise_for_status`),
a timeout, another request error, or the final bare
`httpx.HTTPError("All retries exhausted")` raised when no exception was
recorded. -/
inductive ReqError where
  | statusError (status : ℕ)
  | timeoutError
  | connectionError
  | exhaustedNoError
  deriving DecidableEq

/-- How one attempt is dispatched by the body of the retry loop:
`success` returns the response, `terminal` is the uncaught
`raise_for_status` on a 4xx other than 429, `transient` records
`last_exception` and continues (carrying the parsed `Retry-After` value
for 429 responses). -/
inductive Classified where
  | success (status : ℕ)
  | terminal (status : ℕ)
  | transient (e : ReqError) (retryAfter : Option ℚ)
  deriving DecidableEq

/-- Dispatch of one attempt, following the branch order of the source:
status 429 first, then `status >= 500`, then `raise_for_status`, else
return; transport exceptions are caught and recorded.
`httpx.Response.raise_for_status` is modelled as raising exactly on the
remaining client errors (4xx other than 429) — the statuses the error
taxonomy makes terminal; whether a non-followed 3xx also raises varies
across httpx versions and is not relied on by any property here.
`raise_for_status` raises `httpx.HTTPStatusError`, which is not a
`RequestError`, so the two `except` clauses below do not catch it and it
propagates immediately. -/
def classify (a : AttemptResult) : Classified :=
  match a with
  | .response s ra =>
      if s = 429 then
        .transient (.statusError 429)
          (match ra with
           | some (some v) => some v
           | some none => none
           | none => none)
      else if 500 ≤ s then .transient (.statusError s) none
      else if 400 ≤ s then .terminal s
      else .success s
  | .timeout => .transient .timeoutError none
  | .requestError => .transient .connectionError none

/-- The parsed `Retry-After` value an attempt contributes, if any. -/
def hintOf (a : AttemptResult) : Option ℚ :=
  match classify a with
  | .transient _ ra => ra
  | _ => none

/-- `delay = min(delay * BACKOFF_FACTOR, MAX_BACKOFF_SECONDS)`, executed at
the start of every attempt after the first (the first attempt sleeps the
base delay and does not escalate). -/
def escalate (attempt : ℕ) (delay : ℚ) : ℚ :=
  if attempt = 0 then delay else min (delay * BACKOFF_FACTOR) MAX_BACKOFF_SECONDS

/-- `delay = max(float(retry_after), delay)` when a parsed hint is present. -/
def applyHintTo (ra : Option ℚ) (delay : ℚ) : ℚ :=
  match ra with
  | some v => max v delay
  | none => delay

/-- The retry sleep performed at the start of an attempt: attempts after the
first sleep `delay + jitter`; the first attempt's base-delay pacing sleep is
not an inter-attempt delay and is not recorded. -/
def attemptSleeps (jt : ℕ → ℚ) (attempt : ℕ) (delay : ℚ) : List ℚ :=
  if attempt = 0 then [] else [delay + jt attempt]

/-- `raise last_exception` / `raise httpx.HTTPError("All retries exhausted")`. -/
def lastOrDefault : Option ReqError → ReqError
  | some e => e
  | none => .exhaustedNoError

instance : DecidableEq (Except ReqError ℕ) := fun x y =>
  match x, y with
  | .ok a, .ok b =>
      if h : a = b then .isTrue (h ▸ rfl) else .isFalse (fun hc => h (Except.ok.inj hc))
  | .error a, .error b =>
      if h : a = b then .isTrue (h ▸ rfl) else .isFalse (fun hc => h (Except.error.inj hc))
  | .ok _, .error _ => .isFalse (fun hc => Except.noConfusion hc)
  | .error _, .ok _ => .isFalse (fun hc => Except.noConfusion hc)

/-- Observable outcome of one call to `request_with_retry`: how many
attempts ran, the inter-attempt sleeps in order, and the returned status or
raised error. -/
structure RunResult where
  attempts : ℕ
  sleeps : List ℚ
  result : Except ReqError ℕ
  deriving DecidableEq

/-- Prepend one executed attempt to the outcome of the remaining loop. -/
def mergeRun (sl : List ℚ) (r : RunResult) : RunResult :=
  ⟨r.attempts + 1, sl ++ r.sleeps, r.result⟩

/-- The retry loop of `request_with_retry`, from attempt index `attempt`
with `fuel` loop iterations remaining, current `delay` and recorded
`last_exception`.  `oc` is the stream of attempt outcomes, `jt` the stream
of jitter draws (`random.uniform(0, delay * 0.1)`). -/
def loopFrom (oc : ℕ → AttemptResult) (jt : ℕ → ℚ) :
    ℕ → ℕ → ℚ → Option ReqError → RunResult
  | 0, _, _, last => ⟨0, [], .error (lastOrDefault last)⟩
  | fuel + 1, attempt, delay, last =>
      match classify (oc attempt) with
      | .success s => ⟨1, attemptSleeps jt attempt delay, .ok s⟩
      | .terminal s => ⟨1, attemptSleeps jt attempt delay, .error (.statusError s)⟩
      | .transient e ra =>
          mergeRun (attemptSleeps jt attempt delay)
            (loopFrom oc jt fuel (attempt + 1)
              (applyHintTo ra (escalate attempt delay)) (some e))

/-- `request_with_retry`: run the loop for `MAX_RETRIES + 1` attempts
starting from the base delay with no recorded exception. -/
def request_with_retry (oc : ℕ → AttemptResult) (jt : ℕ → ℚ) : RunResult :=
  loopFrom oc jt (MAX_RETRIES + 1) 0 BASE_DELAY_SECONDS none

/-- The value of the `delay` variable at the start of iteration `k` of the
retry loop (before that iteration's escalation), as a function of the
outcome stream alone. -/
def delayAt (oc : ℕ → AttemptResult) : ℕ → ℚ
  | 0 => BASE_DELAY_SECONDS
  | k + 1 => applyHintTo (hintOf (oc k)) (escalate k (delayAt oc k))

/-- `[g a, g (a+1), ..., g (a+n-1)]`. -/
def mapRange (g : ℕ → ℚ) : ℕ → ℕ → List ℚ
  | _, 0 => []
  | a, n + 1 => g a :: mapRange g (a + 1) n

/-- An attempt outcome the loop retries on: 429, 5xx, timeout or
connection error. -/
def isTransient (a : AttemptResult) : Bool :=
  match classify a with
  | .transient _ _ => true
  | _ => false

/-- The exception recorded for a transient attempt. -/
def transientErrorOf (a : AttemptResult) : ReqError :=
  match classify a with
  | .transient e _ => e
  | _ => .exhaustedNoError

/-! ### Lemmas about the retry loop -/

theorem classify_success_lt {a : AttemptResult} {s : ℕ} (h : classify a = .success s) :
    s < 400 := by
  cases a with
  | response s' ra =>
      simp only [classify] at h
      split_ifs at h with h1 h2 h3
      all_goals simp_all
  | timeout => simp [classify] at h
  | requestError => simp [classify] at h

theorem loopFrom_zero (oc : ℕ → AttemptResult) (jt : ℕ → ℚ) (a : ℕ) (d : ℚ)
    (last : Option ReqError) :
    loopFrom oc jt 0 a d last = ⟨0, [], .error (lastOrDefault last)⟩ := rfl

theorem loopFrom_succ_success (oc : ℕ → AttemptResult) (jt : ℕ → ℚ) {a s : ℕ}
    (fuel : ℕ) (d : ℚ) (last : Option ReqError) (h : classify (oc a) = .success s) :
    loopFrom oc jt (fuel + 1) a d last = ⟨1, attemptSleeps jt a d, .ok s⟩ := by
  unfold loopFrom
  rw [h]

theorem loopFrom_succ_terminal (oc : ℕ → AttemptResult) (jt : ℕ → ℚ) {a s : ℕ}
    (fuel : ℕ) (d : ℚ) (last : Option ReqError) (h : classify (oc a) = .terminal s) :
    loopFrom oc jt (fuel + 1) a d last
      = ⟨1, attemptSleeps jt a d, .error (.statusError s)⟩ := by
  unfold loopFrom
  rw [h]

theorem loopFrom_succ_transient (oc : ℕ → AttemptResult) (jt : ℕ → ℚ) {a : ℕ}
    {e : ReqError} {ra : Option ℚ} (fuel : ℕ) (d : ℚ) (last : Option ReqError)
    (h : classify (oc a) = .transient e ra) :
    loopFrom oc jt (fuel + 1) a d last
      = mergeRun (attemptSleeps jt a d)
          (loopFrom oc jt fuel (a + 1) (applyHintTo ra (escalate a d)) (some e)) := by
  conv_lhs => unfold loopFrom
  rw [h]

theorem isTransient_iff {a : AttemptResult} :
    isTransient a = true ↔ ∃ e ra, classify a = .transient e ra := by
  unfold isTransient
  cases h : classify a <;> simp [h]

theorem mergeRun_attempts (sl : List ℚ) (r : RunResult) :
    (mergeRun sl r).attempts = r.attempts + 1 := rfl

theorem mergeRun_sleeps (sl : List ℚ) (r : RunResult) :
    (mergeRun sl r).sleeps = sl ++ r.sleeps := rfl

theorem mergeRun_result (sl : List ℚ) (r : RunResult) :
    (mergeRun sl r).result = r.result := rfl

theorem loopFrom_result_ok_lt (oc : ℕ → AttemptResult) (jt : ℕ → ℚ) :
    ∀ (fuel a : ℕ) (d : ℚ) (last : Option ReqError) (s : ℕ),
      (loopFrom oc jt fuel a d last).result = .ok s → s < 400 := by
  intro fuel
  induction fuel with
  | zero => intro a d last s h; simp [loopFrom_zero] at h
  | succ fuel ih =>
      intro a d last s h
      cases hcl : classify (oc a) with
      | success s' =>
          rw [loopFrom_succ_success oc jt fuel d last hcl] at h
          cases h
          exact classify_success_lt hcl
      | terminal s' => simp [loopFrom_succ_terminal oc jt fuel d last hcl] at h
      | transient e ra =>
          rw [loopFrom_succ_transient oc jt fuel d last hcl, mergeRun_result] at h
          exact ih _ _ _ _ h

theorem loopFrom_ok (oc : ℕ → AttemptResult) (jt : ℕ → ℚ) :
    ∀ (k fuel a : ℕ) (d : ℚ) (last : Option ReqError) (s : ℕ),
      (∀ j, j < k → isTransient (oc (a + j)) = true) → k < fuel →
      classify (oc (a + k)) = .success s →
      (loopFrom oc jt fuel a d last).result = .ok s ∧
        (loopFrom oc jt fuel a d last).attempts = k + 1 := by
  intro k
  induction k with
  | zero =>
      intro fuel a d last s _ hfuel hcl
      obtain ⟨fuel, rfl⟩ : ∃ f, fuel = f + 1 := ⟨fuel - 1, by omega⟩
      rw [Nat.add_zero] at hcl
      simp [loopFrom_succ_success oc jt fuel d last hcl]
  | succ k ih =>
      intro fuel a d last s htr hfuel hcl
      obtain ⟨fuel, rfl⟩ : ∃ f, fuel = f + 1 := ⟨fuel - 1, by omega⟩
      have h0 : isTransient (oc a) = true := by
        have := htr 0 (by omega)
        simpa using this
      obtain ⟨e, ra, hcl0⟩ := isTransient_iff.mp h0
      have hrec := ih fuel (a + 1) (applyHintTo ra (escalate a d)) (some e) s
        (fun j hj => by
          have := htr (j + 1) (by omega)
          simpa [Nat.add_assoc, Nat.add_comm 1 j] using this)
        (by omega)
        (by
          have : a + 1 + k = a + (k + 1) := by omega
          rw [this]
          exact hcl)
      rw [loopFrom_succ_transient oc jt fuel d last hcl0, mergeRun_result,
        mergeRun_attempts]
      exact ⟨hrec.1, by omega⟩

theorem loopFrom_terminal (oc : ℕ → AttemptResult) (jt : ℕ → ℚ) :
    ∀ (k fuel a : ℕ) (d : ℚ) (last : Option ReqError) (s : ℕ),
      (∀ j, j < k → isTransient (oc (a + j)) = true) → k < fuel →
      classify (oc (a + k)) = .terminal s →
      (loopFrom oc jt fuel a d last).result = .error (.statusError s) ∧
        (loopFrom oc jt fuel a d last).attempts = k + 1 := by
  intro k
  induction k with
  | zero =>
      intro fuel a d last s _ hfuel hcl
      obtain ⟨fuel, rfl⟩ : ∃ f, fuel = f + 1 := ⟨fuel - 1, by omega⟩
      rw [Nat.add_zero] at hcl
      simp [loopFrom_succ_terminal oc jt fuel d last hcl]
  | succ k ih =>
      intro fuel a d last s htr hfuel hcl
      obtain ⟨fuel, rfl⟩ : ∃ f, fuel = f + 1 := ⟨fuel - 1, by omega⟩
      have h0 : isTransient (oc a) = true := by
        have := htr 0 (by omega)
        simpa using this
      obtain ⟨e, ra, hcl0⟩ := isTransient_iff.mp h0
      have hrec := ih fuel (a + 1) (applyHintTo ra (escalate a d)) (some e) s
        (fun j hj => by
          have := htr (j + 1) (by omega)
          simpa [Nat.add_assoc, Nat.add_comm 1 j] using this)
        (by omega)
        (by
          have : a + 1 + k = a + (k + 1) := by omega
          rw [this]
          exact hcl)
      rw [loopFrom_succ_transient oc jt fuel d last hcl0, mergeRun_result,
        mergeRun_attempts]
      exact ⟨hrec.1, by omega⟩

theorem loopFrom_exhaust (oc : ℕ → AttemptResult) (jt : ℕ → ℚ) :
    ∀ (fuel a : ℕ) (d : ℚ) (last : Option ReqError),
      1 ≤ fuel → (∀ j, j < fuel → isTransient (oc (a + j)) = true) →
      (loopFrom oc jt fuel a d last).result
          = .error (transientErrorOf (oc (a + fuel - 1))) ∧
        (loopFrom oc jt fuel a d last).attempts = fuel := by
  intro fuel
  induction fuel with
  | zero => intro a d last h; omega
  | succ fuel ih =>
      intro a d last _ htr
      have h0 : isTransient (oc a) = true := by
        have := htr 0 (by omega)
        simpa using this
      obtain ⟨e, ra, hcl0⟩ := isTransient_iff.mp h0
      rw [loopFrom_succ_transient oc jt fuel d last hcl0, mergeRun_result,
        mergeRun_attempts]
      cases fuel with
      | zero =>
          rw [loopFrom_zero]
          refine ⟨?_, rfl⟩
          simp [lastOrDefault, transientErrorOf, hcl0]
      | succ fuel =>
          have hrec := ih (a + 1) (applyHintTo ra (escalate a d)) (some e)
            (by omega)
            (fun j hj => by
              have := htr (j + 1) (by omega)
              simpa [Nat.add_assoc, Nat.add_comm 1 j] using this)
          constructor
          · rw [hrec.1]
            have : a + 1 + (fuel + 1) - 1 = a + (fuel + 1 + 1) - 1 := by omega
            rw [this]
          · rw [hrec.2]

theorem applyHintTo_ge (ra : Option ℚ) (d : ℚ) : d ≤ applyHintTo ra d := by
  cases ra with
  | none => simp [applyHintTo]
  | some v => simp [applyHintTo]

theorem hintOf_transient {a : AttemptResult} {e : ReqError} {ra : Option ℚ}
    (h : classify a = .transient e ra) : hintOf a = ra := by
  simp [hintOf, h]

theorem loopFrom_sleeps (oc : ℕ → AttemptResult) (jt : ℕ → ℚ) :
    ∀ (fuel a : ℕ) (last : Option ReqError), 1 ≤ a →
      (loopFrom oc jt fuel a (delayAt oc a) last).sleeps
        = mapRange (fun k => delayAt oc k + jt k) a
            (loopFrom oc jt fuel a (delayAt oc a) last).attempts := by
  intro fuel
  induction fuel with
  | zero => intro a last ha; simp [loopFrom_zero, mapRange]
  | succ fuel ih =>
      intro a last ha
      have hane : a ≠ 0 := by omega
      have hsl : attemptSleeps jt a (delayAt oc a) = [delayAt oc a + jt a] := by
        simp [attemptSleeps, hane]
      cases hcl : classify (oc a) with
      | success s =>
          rw [loopFrom_succ_success oc jt fuel (delayAt oc a) last hcl]
          simp [hsl, mapRange]
      | terminal s =>
          rw [loopFrom_succ_terminal oc jt fuel (delayAt oc a) last hcl]
          simp [hsl, mapRange]
      | transient e ra =>
          have hd : applyHintTo ra (escalate a (delayAt oc a)) = delayAt oc (a + 1) := by
            have hh : hintOf (oc a) = ra := hintOf_transient hcl
            simp [delayAt, hh]
          rw [loopFrom_succ_transient oc jt fuel (delayAt oc a) last hcl, mergeRun_sleeps,
            mergeRun_attempts, hsl, hd, ih (a + 1) (some e) (by omega)]
          simp [mapRange]

theorem request_with_retry_sleeps (oc : ℕ → AttemptResult) (jt : ℕ → ℚ) :
    (request_with_retry oc jt).sleeps
      = mapRange (fun k => delayAt oc k + jt k) 1
          ((request_with_retry oc jt).attempts - 1) := by
  have hsl : attemptSleeps jt 0 BASE_DELAY_SECONDS = [] := by simp [attemptSleeps]
  have hnine : request_with_retry oc jt = loopFrom oc jt (8 + 1) 0 BASE_DELAY_SECONDS none :=
    rfl
  cases hcl : classify (oc 0) with
  | success s =>
      rw [hnine, loopFrom_succ_success oc jt 8 BASE_DELAY_SECONDS none hcl]
      simp [hsl, mapRange]
  | terminal s =>
      rw [hnine, loopFrom_succ_terminal oc jt 8 BASE_DELAY_SECONDS none hcl]
      simp [hsl, mapRange]
  | transient e ra =>
      have hd : applyHintTo ra (escalate 0 BASE_DELAY_SECONDS) = delayAt oc 1 := by
        have hh : hintOf (oc 0) = ra := hintOf_transient hcl
        simp [delayAt, hh, escalate]
      rw [hnine, loopFrom_succ_transient oc jt 8 BASE_DELAY_SECONDS none hcl,
        mergeRun_sleeps, mergeRun_attempts, hsl, hd,
        loopFrom_sleeps oc jt 8 1 (some e) (by omega)]
      simp

theorem delayAt_nonneg (oc : ℕ → AttemptResult) : ∀ k, 0 ≤ delayAt oc k := by
  intro k
  induction k with
  | zero => norm_num [delayAt, BASE_DELAY_SECONDS]
  | succ k ih =>
      have hesc : 0 ≤ escalate k (delayAt oc k) := by
        unfold escalate
        split_ifs with h
        · exact ih
        · refine le_min ?_ (by norm_num [MAX_BACKOFF_SECONDS])
          have : (0 : ℚ) ≤ BACKOFF_FACTOR := by norm_num [BACKOFF_FACTOR]
          exact mul_nonneg ih this
      show 0 ≤ applyHintTo (hintOf (oc k)) (escalate k (delayAt oc k))
      exact le_trans hesc (applyHintTo_ge _ _)

theorem delayAt_le_max (oc : ℕ → AttemptResult)
    (hhint : ∀ k v, hintOf (oc k) = some v → v ≤ MAX_BACKOFF_SECONDS) :
    ∀ k, delayAt oc k ≤ MAX_BACKOFF_SECONDS := by
  intro k
  induction k with
  | zero => norm_num [delayAt, BASE_DELAY_SECONDS, MAX_BACKOFF_SECONDS]
  | succ k ih =>
      have hesc : escalate k (delayAt oc k) ≤ MAX_BACKOFF_SECONDS := by
        unfold escalate
        split_ifs with h
        · exact ih
        · exact min_le_right _ _
      show applyHintTo (hintOf (oc k)) (escalate k (delayAt oc k)) ≤ MAX_BACKOFF_SECONDS
      cases hra : hintOf (oc k) with
      | none => simpa [applyHintTo] using hesc
      | some v =>
          have hv := hhint k v hra
          simp only [applyHintTo]
          exact max_le hv hesc

theorem delayAt_mono_succ (oc : ℕ → AttemptResult)
    (hhint : ∀ k v, hintOf (oc k) = some v → v ≤ MAX_BACKOFF_SECONDS) (k : ℕ) :
    delayAt oc k ≤ delayAt oc (k + 1) := by
  have hesc : delayAt oc k ≤ escalate k (delayAt oc k) := by
    unfold escalate
    split_ifs with h
    · exact le_refl _
    · refine le_min ?_ (delayAt_le_max oc hhint k)
      exact le_mul_of_one_le_right (delayAt_nonneg oc k) (by norm_num [BACKOFF_FACTOR])
  exact le_trans hesc (applyHintTo_ge _ _)

theorem delayAt_mono (oc : ℕ → AttemptResult)
    (hhint : ∀ k v, hintOf (oc k) = some v → v ≤ MAX_BACKOFF_SECONDS) {k l : ℕ}
    (hkl : k ≤ l) : delayAt oc k ≤ delayAt oc l := by
  induction l with
  | zero =>
      have : k = 0 := by omega
      subst this
      exact le_refl _
  | succ l ih =>
      rcases Nat.lt_or_ge k (l + 1) with h | h
      · exact le_trans (ih (by omega)) (delayAt_mono_succ oc hhint l)
      · have : k = l + 1 := by omega
        subst this
        exact le_refl _

theorem mapRange_congr (g g' : ℕ → ℚ) (hg : ∀ k, g k = g' k) :
    ∀ a n, mapRange g a n = mapRange g' a n := by
  intro a n
  induction n generalizing a with
  | zero => simp [mapRange]
  | succ n ih => simp [mapRange, hg a, ih (a + 1)]

theorem mapRange_mem {g : ℕ → ℚ} :
    ∀ {a n : ℕ} {x : ℚ}, x ∈ mapRange g a n → ∃ j, j < n ∧ x = g (a + j) := by
  intro a n
  induction n generalizing a with
  | zero => intro x hx; simp [mapRange] at hx
  | succ n ih =>
      intro x hx
      simp only [mapRange, List.mem_cons] at hx
      rcases hx with h | h
      · exact ⟨0, by omega, by simpa using h⟩
      · obtain ⟨j, hj, rfl⟩ := ih h
        exact ⟨j + 1, by omega, by rw [Nat.add_assoc, Nat.add_comm 1 j]⟩

theorem mapRange_pairwise {g : ℕ → ℚ} (hmono : ∀ k, g k ≤ g (k + 1)) :
    ∀ a n, (mapRange g a n).Pairwise (· ≤ ·) := by
  have hle : ∀ i j, i ≤ j → g i ≤ g j := by
    intro i j hij
    induction j with
    | zero =>
        have : i = 0 := by omega
        subst this
        exact le_refl _
    | succ j ih =>
        rcases Nat.lt_or_ge i (j + 1) with h | h
        · exact le_trans (ih (by omega)) (hmono j)
        · have : i = j + 1 := by omega
          subst this
          exact le_refl _
  intro a n
  induction n generalizing a with
  | zero => simp [mapRange]
  | succ n ih =>
      simp only [mapRange]
      refine List.Pairwise.cons ?_ (ih (a + 1))
      intro x hx
      obtain ⟨j, _, rfl⟩ := mapRange_mem hx
      exact hle a (a + 1 + j) (by omega)

theorem mapRange_get? {g : ℕ → ℚ} :
    ∀ {a n k : ℕ}, k < n → (mapRange g a n).get? k = some (g (a + k)) := by
  intro a n
  induction n generalizing a with
  | zero => intro k hk; omega
  | succ n ih =>
      intro k hk
      cases k with
      | zero => simp [mapRange]
      | succ k =>
          have := ih (a := a + 1) (k := k) (by omega)
          simp only [mapRange, List.get?_cons_succ, this]
          congr 2
          omega

/-! ### Claims about the backoff requester -/

/-- Zero jitter: `random.uniform(0, delay * 0.1)` drawing its lower endpoint. -/
def zeroJitter : ℕ → ℚ := fun _ => 0

/-- Outcome stream: a 429 carrying `Retry-After: 1000`, then a 500, then
success. -/
def c1ocA : ℕ → AttemptResult := fun k =>
  if k = 0 then .response 429 (some (some 1000))
  else if k = 1 then .response 500 none
  else .response 200 none

/-- Outcome stream: eight 503 responses, then success on the ninth attempt. -/
def c1ocB : ℕ → AttemptResult := fun k =>
  if k ≤ 7 then .response 503 none else .response 200 none

/-- Jitter draws: maximal jitter (10% of the current 300s delay) on attempt 7,
zero elsewhere. -/
def c1jtB : ℕ → ℚ := fun k => if k = 7 then 30 else 0

/-- C1 counterexample.  The claim asserts that for every interleaving of
429/5xx/timeout outcomes and Retry-After values, the inter-attempt sleeps
are non-decreasing and never exceed `MAX_BACKOFF_SECONDS = 300`.  Two
concrete runs refute it.  First, a 429 carrying `Retry-After: 1000`
(attempt 1), a 500 (attempt 2) and a success (attempt 3), with zero
jitter: the code sets `delay = max(1000, delay)` without applying the
ceiling, so the sleeps are `[1000, 300]` — decreasing, and exceeding 300.
Second, eight 503s then a success, with a legal jitter draw of 30 (10% of
the current 300s delay) on attempt 7: the sleeps end `..., 330, 300` —
again decreasing and exceeding 300. -/
theorem c1_counterexample :
    ((request_with_retry c1ocA zeroJitter).attempts = 3 ∧
      (request_with_retry c1ocA zeroJitter).result = .ok 200 ∧
      (request_with_retry c1ocA zeroJitter).sleeps = [1000, 300] ∧
      ¬ ((request_with_retry c1ocA zeroJitter).sleeps.Pairwise (· ≤ ·) ∧
          ∀ x ∈ (request_with_retry c1ocA zeroJitter).sleeps,
            x ≤ MAX_BACKOFF_SECONDS)) ∧
    ((request_with_retry c1ocB c1jtB).attempts = 9 ∧
      (request_with_retry c1ocB c1jtB).result = .ok 200 ∧
      (∀ k, 0 ≤ c1jtB k ∧ 10 * c1jtB k ≤ delayAt c1ocB k) ∧
      ¬ ((request_with_retry c1ocB c1jtB).sleeps.Pairwise (· ≤ ·) ∧
          ∀ x ∈ (request_with_retry c1ocB c1jtB).sleeps,
            x ≤ MAX_BACKOFF_SECONDS)) := by
  have hA : (request_with_retry c1ocA zeroJitter).sleeps = [1000, 300] := by
    simp [request_with_retry, loopFrom, classify, c1ocA, zeroJitter, mergeRun,
      attemptSleeps, escalate, applyHintTo, BASE_DELAY_SECONDS, MAX_RETRIES,
      BACKOFF_FACTOR, MAX_BACKOFF_SECONDS, min_def, max_def]
    norm_num
  have hB : (request_with_retry c1ocB c1jtB).sleeps
      = [3, 15/2, 75/4, 375/8, 1875/16, 9375/32, 330, 300] := by
    simp [request_with_retry, loopFrom, classify, c1ocB, c1jtB, mergeRun,
      attemptSleeps, escalate, applyHintTo, BASE_DELAY_SECONDS, MAX_RETRIES,
      BACKOFF_FACTOR, MAX_BACKOFF_SECONDS, min_def, max_def]
    norm_num
  have hd7 : delayAt c1ocB 7 = 300 := by
    norm_num [delayAt, hintOf, classify, c1ocB, escalate, applyHintTo,
      BASE_DELAY_SECONDS, BACKOFF_FACTOR, MAX_BACKOFF_SECONDS, min_def, max_def]
  refine ⟨⟨by decide, by decide, hA, ?_⟩, by decide, by decide, ?_, ?_⟩
  · rintro ⟨-, hc⟩
    have := hc 1000 (by rw [hA]; simp)
    norm_num [MAX_BACKOFF_SECONDS] at this
  · intro k
    by_cases hk : k = 7
    · subst hk
      refine ⟨by norm_num [c1jtB], ?_⟩
      rw [hd7]
      norm_num [c1jtB]
    · have h0 : c1jtB k = 0 := by simp [c1jtB, hk]
      rw [h0]
      simpa using delayAt_nonneg c1ocB k
  · rintro ⟨-, hc⟩
    have := hc 330 (by rw [hB]; simp)
    norm_num [MAX_BACKOFF_SECONDS] at this

/-- C1 amended: when the Nth attempt is the first success,
`request_with_retry` performs exactly N attempts; and — restricted to runs
where every parsed Retry-After value is at most the 300-second ceiling and
the jitter draws are zero — the inter-attempt sleeps are non-decreasing
and never exceed the ceiling. -/
theorem c1_amended (oc : ℕ → AttemptResult) (jt : ℕ → ℚ) (N : ℕ)
    (hN1 : 1 ≤ N) (hN : N ≤ MAX_RETRIES + 1)
    (htr : ∀ j, j < N - 1 → isTransient (oc j) = true)
    (s : ℕ) (hs : classify (oc (N - 1)) = .success s) :
    (request_with_retry oc jt).attempts = N ∧
      ((∀ i, jt i = 0) →
        (∀ k v, hintOf (oc k) = some v → v ≤ MAX_BACKOFF_SECONDS) →
        (request_with_retry oc jt).sleeps.Pairwise (· ≤ ·) ∧
          ∀ x ∈ (request_with_retry oc jt).sleeps, x ≤ MAX_BACKOFF_SECONDS) := by
  have hrun := loopFrom_ok oc jt (N - 1) (MAX_RETRIES + 1) 0 BASE_DELAY_SECONDS none s
    (fun j hj => by simpa using htr j hj)
    (by simp [MAX_RETRIES] at hN ⊢; omega)
    (by simpa using hs)
  have hatt : (request_with_retry oc jt).attempts = N := by
    have := hrun.2
    show (loopFrom oc jt (MAX_RETRIES + 1) 0 BASE_DELAY_SECONDS none).attempts = N
    omega
  refine ⟨hatt, fun hz hhint => ?_⟩
  have hsl := request_with_retry_sleeps oc jt
  have hcg : mapRange (fun k => delayAt oc k + jt k) 1
        ((request_with_retry oc jt).attempts - 1)
      = mapRange (delayAt oc) 1 ((request_with_retry oc jt).attempts - 1) :=
    mapRange_congr _ _ (fun k => by rw [hz k, add_zero]) _ _
  rw [hsl, hcg]
  constructor
  · exact mapRange_pairwise (delayAt_mono_succ oc hhint) _ _
  · intro x hx
    obtain ⟨j, _, rfl⟩ := mapRange_mem hx
    exact delayAt_le_max oc hhint _

/-- Outcome stream for the C1 witness: one 500, then success. -/
def c1ocW : ℕ → AttemptResult := fun k =>
  if k = 0 then .response 500 none else .response 200 none

/-- Witness for `c1_amended` at the concrete run `c1ocW` with N = 2. -/
theorem c1_amended_witness :
    (1 ≤ 2 ∧ 2 ≤ MAX_RETRIES + 1 ∧ classify (c1ocW 1) = .success 200) ∧
      (request_with_retry c1ocW zeroJitter).attempts = 2 ∧
      (request_with_retry c1ocW zeroJitter).sleeps.Pairwise (· ≤ ·) ∧
      ∀ x ∈ (request_with_retry c1ocW zeroJitter).sleeps, x ≤ MAX_BACKOFF_SECONDS := by
  have h := c1_amended c1ocW zeroJitter 2 (by norm_num) (by norm_num [MAX_RETRIES])
    (by intro j hj
        have hj0 : j = 0 := by omega
        subst hj0
        decide)
    200 (by decide)
  have h2 := h.2 (fun i => rfl)
    (by intro k v hv
        by_cases hk : k = 0
        · subst hk
          simp [c1ocW, hintOf, classify] at hv
        · simp [c1ocW, hk, hintOf, classify] at hv)
  exact ⟨⟨by norm_num, by norm_num [MAX_RETRIES], by decide⟩, h.1, h2.1, h2.2⟩

/-- C2: `request_with_retry` returns only responses with status < 400
(in particular never a 429); a 4xx other than 429 — after any run of
transient attempts — raises immediately with no further attempt; and when
all `MAX_RETRIES + 1` attempts are transient failures it raises the last
observed error.  It never returns normally after a failure and never
swallows an error. -/
theorem c2_error_propagation (oc : ℕ → AttemptResult) (jt : ℕ → ℚ) :
    (∀ s, (request_with_retry oc jt).result = .ok s → s < 400) ∧
    (∀ k s, k < MAX_RETRIES + 1 → (∀ j, j < k → isTransient (oc j) = true) →
      classify (oc k) = .terminal s →
      (request_with_retry oc jt).result = .error (.statusError s) ∧
        (request_with_retry oc jt).attempts = k + 1) ∧
    ((∀ j, j < MAX_RETRIES + 1 → isTransient (oc j) = true) →
      (request_with_retry oc jt).result = .error (transientErrorOf (oc MAX_RETRIES)) ∧
        (request_with_retry oc jt).attempts = MAX_RETRIES + 1) := by
  refine ⟨?_, ?_, ?_⟩
  · intro s h
    exact loopFrom_result_ok_lt oc jt _ _ _ _ s h
  · intro k s hk htr hcl
    exact loopFrom_terminal oc jt k (MAX_RETRIES + 1) 0 BASE_DELAY_SECONDS none s
      (fun j hj => by simpa using htr j hj) hk (by simpa using hcl)
  · intro htr
    have h := loopFrom_exhaust oc jt (MAX_RETRIES + 1) 0 BASE_DELAY_SECONDS none
      (by omega) (fun j hj => by simpa using htr j hj)
    refine ⟨?_, h.2⟩
    show (loopFrom oc jt (MAX_RETRIES + 1) 0 BASE_DELAY_SECONDS none).result = _
    rw [h.1]
    have he : 0 + (MAX_RETRIES + 1) - 1 = MAX_RETRIES := by omega
    rw [he]

/-- Outcome stream for the C2 witness: an immediate 404. -/
def c2ocW : ℕ → AttemptResult := fun k =>
  if k = 0 then .response 404 none else .timeout

/-- Witness for `c2_error_propagation`: a 404 on the first attempt raises
`HTTPStatusError` after exactly one attempt. -/
theorem c2_witness :
    (classify (c2ocW 0) = .terminal 404) ∧
      (request_with_retry c2ocW zeroJitter).result = .error (.statusError 404) ∧
      (request_with_retry c2ocW zeroJitter).attempts = 1 := by
  have h := (c2_error_propagation c2ocW zeroJitter).2.1 0 404
    (by norm_num [MAX_RETRIES]) (fun j hj => absurd hj (Nat.not_lt_zero j)) (by decide)
  exact ⟨by decide, h.1, h.2⟩

/-- C6: a 429 at attempt k whose Retry-After header parses to V larger than
the currently computed delay forces the sleep before attempt k+1 (if it
happens) to be at least V: the code sets `delay = max(V, delay)` and the
non-negative jitter only adds to it. -/
theorem c6_retry_after_honored (oc : ℕ → AttemptResult) (jt : ℕ → ℚ) (k : ℕ) (V : ℚ)
    (hjt : ∀ i, 0 ≤ jt i)
    (hhint : hintOf (oc k) = some V)
    (hbig : escalate k (delayAt oc k) < V)
    (hexec : k + 2 ≤ (request_with_retry oc jt).attempts) :
    ∃ sl, (request_with_retry oc jt).sleeps.get? k = some sl ∧ V ≤ sl := by
  have hsl := request_with_retry_sleeps oc jt
  have hk : k < (request_with_retry oc jt).attempts - 1 := by omega
  have hget := mapRange_get? (g := fun j => delayAt oc j + jt j) (a := 1) hk
  refine ⟨delayAt oc (1 + k) + jt (1 + k), by rw [hsl, hget], ?_⟩
  have hdel : delayAt oc (1 + k)
      = applyHintTo (hintOf (oc k)) (escalate k (delayAt oc k)) := by
    rw [Nat.add_comm 1 k]
    rfl
  have hmax : V ≤ delayAt oc (1 + k) := by
    rw [hdel, hhint]
    exact le_max_left _ _
  exact le_trans hmax (le_add_of_nonneg_right (hjt (1 + k)))

/-- Outcome stream for the C6 witness: a 429 with `Retry-After: 50`, then
success. -/
def c6ocW : ℕ → AttemptResult := fun k =>
  if k = 0 then .response 429 (some (some 50)) else .response 200 none

/-- Witness for `c6_retry_after_honored`: the hint of 50 seconds exceeds the
3-second computed delay and the next sleep is at least 50 seconds. -/
theorem c6_witness :
    (hintOf (c6ocW 0) = some 50 ∧ escalate 0 (delayAt c6ocW 0) < 50 ∧
        0 + 2 ≤ (request_with_retry c6ocW zeroJitter).attempts) ∧
      ∃ sl, (request_with_retry c6ocW zeroJitter).sleeps.get? 0 = some sl ∧ 50 ≤ sl := by
  have h1 : hintOf (c6ocW 0) = some 50 := by simp [c6ocW, hintOf, classify]
  have h2 : escalate 0 (delayAt c6ocW 0) < 50 := by
    norm_num [escalate, delayAt, BASE_DELAY_SECONDS]
  have h3 : 0 + 2 ≤ (request_with_retry c6ocW zeroJitter).attempts := by decide
  exact ⟨⟨h1, h2, h3⟩,
    c6_retry_after_honored c6ocW zeroJitter 0 50 (fun i => le_refl 0) h1 h2 h3⟩

/-! ## Paginated search client (`search_opinions`)

JSON result items are modelled structurally: a search result item carries
its descriptive fields (absent keys are `none`, `item.get("citation", [])`
and `item.get("opinions", [])` default to `[]`) and a list of nested
opinion sub-items. -/

/-- One entry of an item's `"opinions"` list. -/
structure OpinionSub where
  local_path : Option String
  id : Option ℕ
  download_url : Option String
  otype : Option String
  deriving DecidableEq

/-- One entry of a search page's `"results"` list. -/
structure SearchItem where
  cluster_id : Option ℕ
  caseName : Option String
  court : Option String
  court_id : Option String
  dateFiled : Option String
  docketNumber : Option String
  citation : List String
  opinions : List OpinionSub
  deriving DecidableEq

/-- The metadata dictionary `search_opinions` appends to `results` for a
PDF-bearing opinion sub-item. -/
structure OpinionMeta where
  cluster_id : Option ℕ
  case_name : Option String
  court : Option String
  court_id : Option String
  date_filed : Option String
  docket_number : Option String
  citations : List String
  opinion_id : Option ℕ
  local_path : String
  download_url : Option String
  opinion_type : Option String
  deriving DecidableEq

/-- The record built from `item` and `opinion` fields in the append. -/
def mkMeta (item : SearchItem) (op : OpinionSub) (lp : String) : OpinionMeta :=
  { cluster_id := item.cluster_id
    case_name := item.caseName
    court := item.court
    court_id := item.court_id
    date_filed := item.dateFiled
    docket_number := item.docketNumber
    citations := item.citation
    opinion_id := op.id
    local_path := lp
    download_url := op.download_url
    opinion_type := op.otype }

/-- The inner `for opinion in opinions` loop: append the PDF-bearing
sub-items (`local_path` truthy and ending in `".pdf"`), breaking as soon as
`len(results) >= max_results`. -/
def addOpinions (maxr : ℤ) (item : SearchItem) : List OpinionSub → List OpinionMeta →
    List OpinionMeta
  | [], acc => acc
  | op :: rest, acc =>
      if maxr ≤ (acc.length : ℤ) then acc
      else
        match op.local_path with
        | some lp =>
            if lp ≠ "" ∧ lp.endsWith ".pdf" then
              addOpinions maxr item rest (acc ++ [mkMeta item op lp])
            else addOpinions maxr item rest acc
        | none => addOpinions maxr item rest acc

/-- The `for item in batch` loop over one page's result items. -/
def addItems (maxr : ℤ) : List SearchItem → List OpinionMeta → List OpinionMeta
  | [], acc => acc
  | item :: rest, acc =>
      if maxr ≤ (acc.length : ℤ) then acc
      else addItems maxr rest (addOpinions maxr item item.opinions acc)

/-- What one logical search request produces: a decoded JSON page
(`results` list plus nullable `next` cursor), or an `httpx.HTTPError`
raised by `request_with_retry`. -/
inductive PageResult where
  | page (items : List SearchItem) (next : Option String)
  | httpError
  deriving DecidableEq

/-- `results` of a page; an error page carries none. -/
def pageItems : PageResult → List SearchItem
  | .page items _ => items
  | .httpError => []

/-- Python truthiness of the `url` loop variable: `None` and `""` are
falsy. -/
def urlTruthy : Option String → Bool
  | none => false
  | some s => s != ""

/-- Observable outcome of `search_opinions`: the returned list and the
number of logical HTTP requests issued. -/
structure SearchResult where
  results : List OpinionMeta
  requests : ℕ
  deriving DecidableEq

/-- The `while url and len(results) < max_results` pagination loop.
`server` maps the fetch index to the page the API serves (or an error);
`fuel` bounds the number of iterations (the Python loop can run forever on
a server that keeps serving PDF-less pages with cursors, so theorems are
stated for runs that finish within `fuel`). -/
def searchGo (server : ℕ → PageResult) (maxr : ℤ) :
    ℕ → ℕ → Option String → List OpinionMeta → ℕ → SearchResult
  | 0, _, _, acc, reqs => ⟨acc, reqs⟩
  | fuel + 1, i, url, acc, reqs =>
      if urlTruthy url = true ∧ (acc.length : ℤ) < maxr then
        match server i with
        | .httpError => ⟨acc, reqs + 1⟩
        | .page items next =>
            if items = [] then ⟨acc, reqs + 1⟩
            else searchGo server maxr fuel (i + 1) next (addItems maxr items acc)
              (reqs + 1)
      else ⟨acc, reqs⟩

def COURTLISTENER_SEARCH_URL : String :=
  "https://www.courtlistener.com/api/rest/v4/search/"

/-- `search_opinions`: paginate from the fixed search URL with an empty
result accumulator. -/
def search_opinions (server : ℕ → PageResult) (maxr : ℤ) (fuel : ℕ) : SearchResult :=
  searchGo server maxr fuel 0 (some COURTLISTENER_SEARCH_URL) [] 0

/-- The PDF-bearing extraction of one item's sub-items, without the
`max_results` cut-off. -/
def extractOps (item : SearchItem) : List OpinionSub → List OpinionMeta
  | [] => []
  | op :: rest =>
      match op.local_path with
      | some lp =>
          if lp ≠ "" ∧ lp.endsWith ".pdf" then
            mkMeta item op lp :: extractOps item rest
          else extractOps item rest
      | none => extractOps item rest

/-- The PDF-bearing extraction of a list of items, in order. -/
def extractItems : List SearchItem → List OpinionMeta
  | [] => []
  | item :: rest => extractOps item item.opinions ++ extractItems rest

/-- The items of the `m` consecutive pages served from fetch index `i`. -/
def pagesItems (server : ℕ → PageResult) : ℕ → ℕ → List SearchItem
  | _, 0 => []
  | i, m + 1 => pageItems (server i) ++ pagesItems server (i + 1) m

/-- Bridge from the retry layer to the page model: an erroring
`request_with_retry` call surfaces as an error page, a successful one is
decoded (by `dec`) into items and cursor from its status. -/
def pageResultOf (r : RunResult) (dec : ℕ → List SearchItem × Option String) :
    PageResult :=
  match r.result with
  | .error _ => .httpError
  | .ok s => .page (dec s).1 (dec s).2

/-! ### Lemmas and claims about the paginated search client -/

theorem addOpinions_eq (maxr : ℤ) (item : SearchItem) :
    ∀ (ops : List OpinionSub) (acc : List OpinionMeta),
      addOpinions maxr item ops acc
        = acc ++ (extractOps item ops).take (maxr - acc.length).toNat := by
  intro ops
  induction ops with
  | nil => intro acc; simp [addOpinions, extractOps]
  | cons op rest ih =>
      intro acc
      by_cases hge : maxr ≤ (acc.length : ℤ)
      · rw [addOpinions, if_pos hge]
        have h0 : (maxr - acc.length).toNat = 0 := by omega
        rw [h0]
        simp
      · simp only [addOpinions, if_neg hge]
        cases hlp : op.local_path with
        | none =>
            simp only [extractOps, hlp]
            exact ih acc
        | some lp =>
            simp only [extractOps, hlp]
            by_cases hc : lp ≠ "" ∧ lp.endsWith ".pdf"
            · rw [if_pos hc, if_pos hc, ih (acc ++ [mkMeta item op lp])]
              have hlen : ((acc ++ [mkMeta item op lp]).length : ℤ) = acc.length + 1 := by
                simp
              rw [hlen]
              have hn : (maxr - acc.length).toNat
                  = (maxr - ((acc.length : ℤ) + 1)).toNat + 1 := by omega
              rw [hn, List.take_succ_cons]
              simp
            · rw [if_neg hc, if_neg hc]
              exact ih acc

theorem addItems_eq (maxr : ℤ) :
    ∀ (items : List SearchItem) (acc : List OpinionMeta),
      addItems maxr items acc
        = acc ++ (extractItems items).take (maxr - acc.length).toNat := by
  intro items
  induction items with
  | nil => intro acc; simp [addItems, extractItems]
  | cons item rest ih =>
      intro acc
      by_cases hge : maxr ≤ (acc.length : ℤ)
      · rw [addItems, if_pos hge]
        have h0 : (maxr - acc.length).toNat = 0 := by omega
        rw [h0]
        simp
      · rw [addItems, if_neg hge, ih (addOpinions maxr item item.opinions acc),
          addOpinions_eq, extractItems, List.take_append_eq_append_take]
        have hlen : (acc ++ (extractOps item item.opinions).take
              (maxr - acc.length).toNat).length
            = acc.length + min (maxr - acc.length).toNat
                (extractOps item item.opinions).length := by
          simp [List.length_take]
        have hm : (maxr - ((acc ++ (extractOps item item.opinions).take
              (maxr - acc.length).toNat).length : ℤ)).toNat
            = (maxr - (acc.length : ℤ)).toNat
                - (extractOps item item.opinions).length := by
          rw [hlen]
          rcases le_total (maxr - (acc.length : ℤ)).toNat
              (extractOps item item.opinions).length with h | h
          · rw [min_eq_left h]
            push_cast
            omega
          · rw [min_eq_right h]
            push_cast
            omega
        rw [hm, List.append_assoc]

theorem take_sub_length_toNat (maxr : ℤ) (acc E : List OpinionMeta) :
    (maxr - ((acc ++ E.take (maxr - acc.length).toNat).length : ℤ)).toNat
      = (maxr - (acc.length : ℤ)).toNat - E.length := by
  have hlen : (acc ++ E.take (maxr - acc.length).toNat).length
      = acc.length + min (maxr - acc.length).toNat E.length := by
    simp [List.length_take]
  rw [hlen]
  rcases le_total (maxr - (acc.length : ℤ)).toNat E.length with h | h
  · rw [min_eq_left h]
    push_cast
    omega
  · rw [min_eq_right h]
    push_cast
    omega

theorem take_append_chunk (maxr : ℤ) (acc E F : List OpinionMeta) :
    (acc ++ E.take (maxr - acc.length).toNat)
        ++ F.take ((maxr - (((acc ++ E.take (maxr - acc.length).toNat).length : ℕ) : ℤ)).toNat)
      = acc ++ (E ++ F).take (maxr - acc.length).toNat := by
  rw [take_sub_length_toNat, List.take_append_eq_append_take, List.append_assoc]

theorem searchGo_zero (server : ℕ → PageResult) (maxr : ℤ) (i : ℕ) (url : Option String)
    (acc : List OpinionMeta) (reqs : ℕ) :
    searchGo server maxr 0 i url acc reqs = ⟨acc, reqs⟩ := rfl

theorem searchGo_stop (server : ℕ → PageResult) (maxr : ℤ) (fuel i : ℕ)
    (url : Option String) (acc : List OpinionMeta) (reqs : ℕ)
    (h : ¬ (urlTruthy url = true ∧ (acc.length : ℤ) < maxr)) :
    searchGo server maxr (fuel + 1) i url acc reqs = ⟨acc, reqs⟩ := by
  conv_lhs => unfold searchGo
  rw [if_neg h]

theorem searchGo_error (server : ℕ → PageResult) (maxr : ℤ) (fuel i : ℕ)
    (url : Option String) (acc : List OpinionMeta) (reqs : ℕ)
    (h : urlTruthy url = true ∧ (acc.length : ℤ) < maxr)
    (hsv : server i = .httpError) :
    searchGo server maxr (fuel + 1) i url acc reqs = ⟨acc, reqs + 1⟩ := by
  conv_lhs => unfold searchGo
  rw [if_pos h, hsv]

theorem searchGo_emptyPage (server : ℕ → PageResult) (maxr : ℤ) (fuel i : ℕ)
    (url : Option String) (acc : List OpinionMeta) (reqs : ℕ)
    {items : List SearchItem} {next : Option String}
    (h : urlTruthy url = true ∧ (acc.length : ℤ) < maxr)
    (hsv : server i = .page items next) (hits : items = []) :
    searchGo server maxr (fuel + 1) i url acc reqs = ⟨acc, reqs + 1⟩ := by
  conv_lhs => unfold searchGo
  rw [if_pos h, hsv]
  show (if items = [] then (⟨acc, reqs + 1⟩ : SearchResult)
      else searchGo server maxr fuel (i + 1) next (addItems maxr items acc) (reqs + 1)) = _
  rw [if_pos hits]

theorem searchGo_step (server : ℕ → PageResult) (maxr : ℤ) (fuel i : ℕ)
    (url : Option String) (acc : List OpinionMeta) (reqs : ℕ)
    {items : List SearchItem} {next : Option String}
    (h : urlTruthy url = true ∧ (acc.length : ℤ) < maxr)
    (hsv : server i = .page items next) (hits : items ≠ []) :
    searchGo server maxr (fuel + 1) i url acc reqs
      = searchGo server maxr fuel (i + 1) next (addItems maxr items acc) (reqs + 1) := by
  conv_lhs => unfold searchGo
  rw [if_pos h, hsv]
  show (if items = [] then (⟨acc, reqs + 1⟩ : SearchResult)
      else searchGo server maxr fuel (i + 1) next (addItems maxr items acc) (reqs + 1)) = _
  rw [if_neg hits]

theorem extractItems_append (xs ys : List SearchItem) :
    extractItems (xs ++ ys) = extractItems xs ++ extractItems ys := by
  induction xs with
  | nil => simp [extractItems]
  | cons x rest ih => simp [extractItems, ih]

theorem searchGo_spec (server : ℕ → PageResult) (maxr : ℤ) :
    ∀ (fuel i : ℕ) (url : Option String) (acc : List OpinionMeta) (reqs : ℕ),
      ∃ m, m ≤ fuel ∧ (∀ j, j < m → server (i + j) ≠ .httpError) ∧
        (searchGo server maxr fuel i url acc reqs).results
          = acc ++ (extractItems (pagesItems server i m)).take (maxr - acc.length).toNat ∧
        (m = fuel
          ∨ maxr ≤ ((searchGo server maxr fuel i url acc reqs).results.length : ℤ)
          ∨ server (i + m) = .httpError
          ∨ (∃ its nx, server (i + m - 1) = .page its nx ∧ 1 ≤ m ∧
              (urlTruthy nx = false ∨ its = []))
          ∨ (m = 0 ∧ urlTruthy url = false)) := by
  intro fuel
  induction fuel with
  | zero =>
      intro i url acc reqs
      exact ⟨0, le_refl 0, fun j hj => absurd hj (Nat.not_lt_zero j),
        by simp [searchGo_zero, pagesItems, extractItems], Or.inl rfl⟩
  | succ fuel ih =>
      intro i url acc reqs
      by_cases hcond : urlTruthy url = true ∧ (acc.length : ℤ) < maxr
      · cases hsv : server i with
        | httpError =>
            refine ⟨0, by omega, fun j hj => absurd hj (Nat.not_lt_zero j), ?_, ?_⟩
            · rw [searchGo_error server maxr fuel i url acc reqs hcond hsv]
              simp [pagesItems, extractItems]
            · exact Or.inr (Or.inr (Or.inl (by simpa using hsv)))
        | page items next =>
            by_cases hits : items = []
            · refine ⟨1, by omega, ?_, ?_, ?_⟩
              · intro j hj
                have hj0 : j = 0 := by omega
                subst hj0
                simp [hsv]
              · rw [searchGo_emptyPage server maxr fuel i url acc reqs hcond hsv hits]
                subst hits
                simp [pagesItems, pageItems, extractItems, hsv]
              · refine Or.inr (Or.inr (Or.inr (Or.inl ⟨items, next, ?_, by omega,
                  Or.inr hits⟩)))
                simpa using hsv
            · have hstep := searchGo_step server maxr fuel i url acc reqs hcond hsv hits
              obtain ⟨m, hmf, hne, hres, hstop⟩ :=
                ih (i + 1) next (addItems maxr items acc) (reqs + 1)
              refine ⟨m + 1, by omega, ?_, ?_, ?_⟩
              · intro j hj
                cases j with
                | zero => simp [hsv]
                | succ j =>
                    have := hne j (by omega)
                    have hidx : i + 1 + j = i + (j + 1) := by omega
                    rwa [hidx] at this
              · rw [hstep, hres, addItems_eq]
                have hpg : pagesItems server i (m + 1)
                    = items ++ pagesItems server (i + 1) m := by
                  simp [pagesItems, pageItems, hsv]
                rw [hpg, extractItems_append]
                exact take_append_chunk maxr acc (extractItems items)
                  (extractItems (pagesItems server (i + 1) m))
              · rcases hstop with h1 | h2 | h3 | h4 | h5
                · exact Or.inl (by omega)
                · rw [hstep]
                  exact Or.inr (Or.inl h2)
                · refine Or.inr (Or.inr (Or.inl ?_))
                  have hidx : i + 1 + m = i + (m + 1) := by omega
                  rwa [hidx] at h3
                · obtain ⟨its, nx, hpage, hm1, hrest⟩ := h4
                  refine Or.inr (Or.inr (Or.inr (Or.inl ⟨its, nx, ?_, by omega, hrest⟩)))
                  have hidx : i + 1 + m - 1 = i + (m + 1) - 1 := by omega
                  rwa [hidx] at hpage
                · obtain ⟨hm0, hnx⟩ := h5
                  subst hm0
                  refine Or.inr (Or.inr (Or.inr (Or.inl ⟨items, next, ?_, by omega,
                    Or.inl hnx⟩)))
                  simpa using hsv
      · refine ⟨0, by omega, fun j hj => absurd hj (Nat.not_lt_zero j), ?_, ?_⟩
        · rw [searchGo_stop server maxr fuel i url acc reqs hcond]
          simp [pagesItems, extractItems]
        · rw [searchGo_stop server maxr fuel i url acc reqs hcond]
          rcases Decidable.not_and_iff_or_not.mp hcond with h | h
          · exact Or.inr (Or.inr (Or.inr (Or.inr ⟨rfl, by simpa using h⟩)))
          · exact Or.inr (Or.inl (by simpa using h))

/-- C3: for every sequence of pages served by the search API,
`search_opinions` returns at most `max_results` entries; the returned list
is exactly the PDF-bearing nested opinion sub-items of the `m` fetched
pages, in page-then-item-then-sub-item order, truncated to `max_results`
(sub-items without a populated `.pdf` path are dropped by the extraction
and do not count); and pagination stops only on fuel exhaustion, on
reaching `max_results`, on a request error, or after a page whose cursor
is falsy or whose item list is empty. -/
theorem c3_search_characterization (server : ℕ → PageResult) (maxr : ℤ) (fuel : ℕ) :
    (search_opinions server maxr fuel).results.length ≤ maxr.toNat ∧
    ∃ m, m ≤ fuel ∧ (∀ j, j < m → server j ≠ .httpError) ∧
      (search_opinions server maxr fuel).results
        = (extractItems (pagesItems server 0 m)).take maxr.toNat ∧
      (m = fuel
        ∨ maxr ≤ ((search_opinions server maxr fuel).results.length : ℤ)
        ∨ server m = .httpError
        ∨ (∃ its nx, server (m - 1) = .page its nx ∧ 1 ≤ m ∧
            (urlTruthy nx = false ∨ its = []))) := by
  obtain ⟨m, hmf, hne, hres, hstop⟩ := searchGo_spec server maxr fuel 0
    (some COURTLISTENER_SEARCH_URL) [] 0
  have hres' : (search_opinions server maxr fuel).results
      = (extractItems (pagesItems server 0 m)).take maxr.toNat := by
    rw [search_opinions, hres]
    simp
  constructor
  · rw [hres']
    exact List.length_take_le _ _
  · refine ⟨m, hmf, fun j hj => by simpa using hne j hj, hres', ?_⟩
    rcases hstop with h1 | h2 | h3 | h4 | h5
    · exact Or.inl h1
    · exact Or.inr (Or.inl h2)
    · exact Or.inr (Or.inr (Or.inl (by simpa using h3)))
    · obtain ⟨its, nx, hpage, hm1, hrest⟩ := h4
      exact Or.inr (Or.inr (Or.inr ⟨its, nx, by simpa using hpage, hm1, hrest⟩))
    · exact absurd h5.2 (by decide)

/-- C8: when `request_with_retry` raises during pagination (the served
page is the error result of an exhausted retry run), `search_opinions`'
loop does not propagate the error: it stops and returns exactly the
results collected so far. -/
theorem c8_search_absorbs_retry_exhaustion (server : ℕ → PageResult) (maxr : ℤ)
    (fuel i : ℕ) (url : Option String) (acc : List OpinionMeta) (reqs : ℕ)
    (oc : ℕ → AttemptResult) (jt : ℕ → ℚ)
    (dec : ℕ → List SearchItem × Option String) (e : ReqError)
    (hserver : server i = pageResultOf (request_with_retry oc jt) dec)
    (herr : (request_with_retry oc jt).result = .error e)
    (hurl : urlTruthy url = true) (hlen : (acc.length : ℤ) < maxr) :
    searchGo server maxr (fuel + 1) i url acc reqs = ⟨acc, reqs + 1⟩ := by
  have hsv : server i = .httpError := by
    rw [hserver]
    simp [pageResultOf, herr]
  exact searchGo_error server maxr fuel i url acc reqs ⟨hurl, hlen⟩ hsv

/-- Outcome stream for the C8 witness: every attempt times out. -/
def c8oc : ℕ → AttemptResult := fun _ => .timeout

/-- Decoder for the C8 witness (never reached). -/
def c8dec : ℕ → List SearchItem × Option String := fun _ => ([], none)

/-- Server for the C8 witness: every page fetch is the exhausted retry
run. -/
def c8server : ℕ → PageResult :=
  fun _ => pageResultOf (request_with_retry c8oc zeroJitter) c8dec

/-- Witness for `c8_search_absorbs_retry_exhaustion`: a timeout-exhausted
retry run surfaces as an error page and the search returns its (empty)
partial results after one request. -/
theorem c8_witness :
    ((request_with_retry c8oc zeroJitter).result = .error .timeoutError ∧
        urlTruthy (some "q") = true ∧ ((0 : ℤ) < 5)) ∧
      searchGo c8server 5 1 0 (some "q") [] 0 = ⟨[], 1⟩ := by
  refine ⟨⟨by decide, by decide, by norm_num⟩, ?_⟩
  exact c8_search_absorbs_retry_exhaustion c8server 5 0 0 (some "q") [] 0 c8oc zeroJitter
    c8dec .timeoutError rfl (by decide) (by decide) (by norm_num)

/-- C10: with `max_results ≤ 0` the pagination guard
`len(results) < max_results` fails before the first request, so
`search_opinions` returns the empty list having issued zero requests. -/
theorem c10_nonpositive_max_results (server : ℕ → PageResult) (maxr : ℤ) (fuel : ℕ)
    (h : maxr ≤ 0) :
    search_opinions server maxr fuel = ⟨[], 0⟩ := by
  cases fuel with
  | zero => rfl
  | succ fuel =>
      apply searchGo_stop
      rintro ⟨-, hlt⟩
      simp at hlt
      omega

/-- Witness for `c10_nonpositive_max_results` at `max_results = -3` and
`max_results = 0`. -/
theorem c10_witness :
    ((-3 : ℤ) ≤ 0 ∧ (0 : ℤ) ≤ 0) ∧
      search_opinions (fun _ => .httpError) (-3) 5 = ⟨[], 0⟩ ∧
      search_opinions (fun _ => .page [] none) 0 7 = ⟨[], 0⟩ := by
  exact ⟨⟨by norm_num, le_refl 0⟩,
    c10_nonpositive_max_results _ (-3) 5 (by norm_num),
    c10_nonpositive_max_results _ 0 7 (le_refl 0)⟩

/-! ## Resumable bulk downloader (`download_pdf`, `download_corpus`)

The filesystem is modelled as the list of PDF stems present in the
`opinions` directory, and the in-memory `existing_metadata` dict as an
insertion-ordered association list keyed by `str(opinion["opinion_id"])`
(Python dicts preserve insertion order, and updating an existing key keeps
its position).  A download attempt's network outcome is abstracted by a
boolean per loop index: `true` means `request_with_retry` returned and the
bytes were written, `false` that it raised `httpx.HTTPError` after
exhausting retries. -/

/-- `str(opinion["opinion_id"])`: Python renders a missing id (`None`) as
the string `"None"`. -/
def opinionIdStr (o : OpinionMeta) : String :=
  match o.opinion_id with
  | some n => toString n
  | none => "None"

/-- Lookup in the insertion-ordered dict. -/
def dictLookup : List (String × OpinionMeta) → String → Option OpinionMeta
  | [], _ => none
  | (k, v) :: rest, key => if k = key then some v else dictLookup rest key

/-- `d[key] = val` on an insertion-ordered dict: replace in place if the
key exists, else append. -/
def dictInsert : List (String × OpinionMeta) → String → OpinionMeta →
    List (String × OpinionMeta)
  | [], key, val => [(key, val)]
  | (k, v) :: rest, key, val =>
      if k = key then (key, val) :: rest else (k, v) :: dictInsert rest key val

/-- The keys of the dict, in order. -/
def dictKeys (m : List (String × OpinionMeta)) : List String :=
  m.map Prod.fst

/-- The dict comprehension
`{str(item["opinion_id"]): item for item in existing_data["opinions"]}`. -/
def loadManifest (items : List OpinionMeta) : List (String × OpinionMeta) :=
  items.foldl (fun m it => dictInsert m (opinionIdStr it) it) []

/-- `download_pdf`: on a successful response the bytes are written and the
stem appears on disk; on an exhausted-retries `httpx.HTTPError` the
function returns `False` and nothing is written (the write occurs only
after `request_with_retry` returns). -/
def download_pdf (files : List String) (fetchOk : Bool) (stem : String) :
    Bool × List String :=
  if fetchOk then (true, files ++ [stem]) else (false, files)

/-- Per-artifact classification by the sync loop. -/
inductive SyncClass where
  | downloadedC
  | skippedC
  | failedC
  deriving DecidableEq

/-- State of the download loop in `download_corpus`: files on disk,
`existing_metadata`, the three counters, and the per-artifact
classification trace. -/
structure SyncState where
  files : List String
  manifest : List (String × OpinionMeta)
  downloaded : ℕ
  skipped : ℕ
  failed : ℕ
  classes : List SyncClass
  deriving DecidableEq

/-- One iteration of `for opinion in tqdm(opinions, ...)`: skip (and
self-heal the manifest) when the PDF already exists, otherwise download
and record the descriptor on success or count a failure. -/
def syncStep (fetchOk : ℕ → Bool) (st : SyncState) (idxOp : ℕ × OpinionMeta) :
    SyncState :=
  let oid := opinionIdStr idxOp.2
  if oid ∈ st.files then
    { st with
      skipped := st.skipped + 1
      manifest :=
        if (dictLookup st.manifest oid).isSome then st.manifest
        else dictInsert st.manifest oid idxOp.2
      classes := st.classes ++ [.skippedC] }
  else
    match download_pdf st.files (fetchOk idxOp.1) oid with
    | (true, files') =>
        { st with
          files := files'
          downloaded := st.downloaded + 1
          manifest := dictInsert st.manifest oid idxOp.2
          classes := st.classes ++ [.downloadedC] }
    | (false, files') =>
        { st with
          files := files'
          failed := st.failed + 1
          classes := st.classes ++ [.failedC] }

/-- The download loop over the remaining opinions, `idx` being the index of
the next one. -/
def syncGo (fetchOk : ℕ → Bool) : List OpinionMeta → ℕ → SyncState → SyncState
  | [], _, st => st
  | op :: rest, idx, st => syncGo fetchOk rest (idx + 1) (syncStep fetchOk st (idx, op))

/-- The metadata object serialized to `metadata.json` at the end of
`download_corpus`. -/
structure SavedMetadata where
  corpus : String
  search_query : String
  court_filter : Option String
  total_opinions : ℕ
  opinions : List OpinionMeta
  deriving DecidableEq

/-- The loop state `download_corpus` starts from: the PDFs already on disk
and the manifest loaded from `metadata.json` (empty when the file is
absent), with zeroed counters. -/
def initState (files0 : List String) (loaded : Option SavedMetadata) : SyncState :=
  { files := files0
    manifest :=
      match loaded with
      | some md => loadManifest md.opinions
      | none => []
    downloaded := 0
    skipped := 0
    failed := 0
    classes := [] }

/-- The saved metadata built at the end of a run:
`total_opinions = len(existing_metadata)` and
`opinions = list(existing_metadata.values())`. -/
def mkSaved (corpus query : String) (court : Option String) (st : SyncState) :
    SavedMetadata :=
  { corpus := corpus
    search_query := query
    court_filter := court
    total_opinions := st.manifest.length
    opinions := st.manifest.map Prod.snd }

/-- `download_corpus` after the search phase: run the download loop over
the search results against the corpus directory state and write the merged
metadata; returns the final loop state and the saved metadata. -/
def download_corpus (corpus query : String) (court : Option String)
    (fetchOk : ℕ → Bool) (opinions : List OpinionMeta) (files0 : List String)
    (loaded : Option SavedMetadata) : SyncState × SavedMetadata :=
  let fin := syncGo fetchOk opinions 0 (initState files0 loaded)
  (fin, mkSaved corpus query court fin)

/-! ### Lemmas and claims about the resumable bulk downloader -/

theorem dictLookup_insert (m : List (String × OpinionMeta)) (k key : String)
    (v : OpinionMeta) :
    dictLookup (dictInsert m k v) key = if k = key then some v else dictLookup m key := by
  induction m with
  | nil => simp [dictInsert, dictLookup]
  | cons p rest ih =>
      obtain ⟨k', v'⟩ := p
      by_cases hk : k' = k
      · subst hk
        rw [dictInsert, if_pos rfl]
        by_cases hq : k' = key
        · subst hq
          simp [dictLookup]
        · simp [dictLookup, hq]
      · rw [dictInsert, if_neg hk]
        by_cases hq : k' = key
        · subst hq
          have : ¬ k = k' := fun h => hk h.symm
          simp [dictLookup, this]
        · simp [dictLookup, hq, ih]

theorem mem_dictKeys_insert (m : List (String × OpinionMeta)) (k x : String)
    (v : OpinionMeta) :
    x ∈ dictKeys (dictInsert m k v) ↔ x ∈ dictKeys m ∨ x = k := by
  induction m with
  | nil => simp [dictInsert, dictKeys]
  | cons p rest ih =>
      obtain ⟨k', v'⟩ := p
      by_cases hk : k' = k
      · subst hk
        rw [dictInsert, if_pos rfl]
        simp [dictKeys]
        tauto
      · rw [dictInsert, if_neg hk]
        simp only [dictKeys, List.map_cons, List.mem_cons] at ih ⊢
        tauto

theorem dictKeys_nodup_insert (m : List (String × OpinionMeta)) (k : String)
    (v : OpinionMeta) (h : (dictKeys m).Nodup) :
    (dictKeys (dictInsert m k v)).Nodup := by
  induction m with
  | nil => simp [dictInsert, dictKeys]
  | cons p rest ih =>
      obtain ⟨k', v'⟩ := p
      simp only [dictKeys, List.map_cons, List.nodup_cons] at h
      by_cases hk : k' = k
      · subst hk
        rw [dictInsert, if_pos rfl]
        simpa [dictKeys] using h
      · rw [dictInsert, if_neg hk]
        simp only [dictKeys, List.map_cons, List.nodup_cons]
        refine ⟨?_, ih h.2⟩
        rw [show (dictInsert rest k v).map Prod.fst = dictKeys (dictInsert rest k v) from rfl,
          mem_dictKeys_insert]
        push_neg
        exact ⟨fun hmem => h.1 hmem, hk⟩

theorem dictLookup_isSome_iff (m : List (String × OpinionMeta)) (x : String) :
    (dictLookup m x).isSome ↔ x ∈ dictKeys m := by
  induction m with
  | nil => simp [dictLookup, dictKeys]
  | cons p rest ih =>
      obtain ⟨k', v'⟩ := p
      by_cases hk : k' = x
      · subst hk
        simp [dictLookup, dictKeys]
      · have hstep : dictLookup ((k', v') :: rest) x = dictLookup rest x := by
          simp [dictLookup, hk]
        rw [hstep, ih]
        simp only [dictKeys, List.map_cons, List.mem_cons]
        constructor
        · exact Or.inr
        · rintro (h | h)
          · exact absurd h.symm hk
          · exact h

theorem dictFilter_singleton (m : List (String × OpinionMeta)) (x : String)
    (hnd : (dictKeys m).Nodup) (hsome : (dictLookup m x).isSome) :
    (m.filter (fun p => p.1 == x)).length = 1 := by
  induction m with
  | nil => simp [dictLookup] at hsome
  | cons p rest ih =>
      obtain ⟨k', v'⟩ := p
      simp only [dictKeys, List.map_cons, List.nodup_cons] at hnd
      by_cases hk : k' = x
      · subst hk
        have hnone : rest.filter (fun p => p.1 == k') = [] := by
          rw [List.filter_eq_nil]
          intro p hp hbeq
          have : p.1 = k' := by simpa using hbeq
          exact hnd.1 (this ▸ List.mem_map_of_mem Prod.fst hp)
        simp [List.filter_cons, hnone]
      · have hsome' : (dictLookup rest x).isSome := by
          simpa [dictLookup, hk] using hsome
        have := ih hnd.2 hsome'
        simpa [List.filter_cons, hk] using this

/-- Every entry of the dict is keyed by its value's `str(opinion_id)`. -/
def CanonKeys (m : List (String × OpinionMeta)) : Prop :=
  ∀ p ∈ m, p.1 = opinionIdStr p.2

theorem canonKeys_insert {m : List (String × OpinionMeta)} (hm : CanonKeys m)
    (v : OpinionMeta) : CanonKeys (dictInsert m (opinionIdStr v) v) := by
  induction m with
  | nil =>
      intro p hp
      simp [dictInsert] at hp
      subst hp
      rfl
  | cons q rest ih =>
      obtain ⟨k', v'⟩ := q
      have hrest : CanonKeys rest := fun p hp => hm p (List.mem_cons_of_mem _ hp)
      by_cases hk : k' = opinionIdStr v
      · rw [dictInsert, if_pos hk]
        intro p hp
        rcases List.mem_cons.mp hp with h | h
        · subst h; rfl
        · exact hm p (List.mem_cons_of_mem _ h)
      · rw [dictInsert, if_neg hk]
        intro p hp
        rcases List.mem_cons.mp hp with h | h
        · subst h
          exact hm (k', v') (List.mem_cons_self _ _)
        · exact ih hrest p h

theorem loadManifest_nodup_aux (items : List OpinionMeta) :
    ∀ m, (dictKeys m).Nodup →
      (dictKeys (items.foldl (fun m it => dictInsert m (opinionIdStr it) it) m)).Nodup := by
  induction items with
  | nil => intro m hm; simpa using hm
  | cons it rest ih =>
      intro m hm
      exact ih _ (dictKeys_nodup_insert m (opinionIdStr it) it hm)

theorem loadManifest_nodup (items : List OpinionMeta) :
    (dictKeys (loadManifest items)).Nodup :=
  loadManifest_nodup_aux items [] (by simp [dictKeys])

theorem loadManifest_canon_aux (items : List OpinionMeta) :
    ∀ m, CanonKeys m →
      CanonKeys (items.foldl (fun m it => dictInsert m (opinionIdStr it) it) m) := by
  induction items with
  | nil => intro m hm; simpa using hm
  | cons it rest ih =>
      intro m hm
      exact ih _ (canonKeys_insert hm it)

theorem loadManifest_canon (items : List OpinionMeta) : CanonKeys (loadManifest items) :=
  loadManifest_canon_aux items [] (fun p hp => absurd hp (List.not_mem_nil p))

theorem foldl_insert_cons (k : String) (v : OpinionMeta) :
    ∀ (items : List OpinionMeta) (m : List (String × OpinionMeta)),
      (∀ it ∈ items, opinionIdStr it ≠ k) →
      items.foldl (fun m it => dictInsert m (opinionIdStr it) it) ((k, v) :: m)
        = (k, v) :: items.foldl (fun m it => dictInsert m (opinionIdStr it) it) m := by
  intro items
  induction items with
  | nil => intro m _; rfl
  | cons it rest ih =>
      intro m hne
      have hk : k ≠ opinionIdStr it := fun h => hne it (List.mem_cons_self _ _) h.symm
      simp only [List.foldl_cons]
      rw [dictInsert, if_neg hk]
      exact ih _ (fun x hx => hne x (List.mem_cons_of_mem _ hx))

theorem loadManifest_roundtrip :
    ∀ (m : List (String × OpinionMeta)), (dictKeys m).Nodup → CanonKeys m →
      loadManifest (m.map Prod.snd) = m := by
  intro m
  induction m with
  | nil => intro _ _; rfl
  | cons p rest ih =>
      obtain ⟨k, v⟩ := p
      intro hnd hcanon
      simp only [dictKeys, List.map_cons, List.nodup_cons] at hnd
      have hkv : k = opinionIdStr v := hcanon (k, v) (List.mem_cons_self _ _)
      have hrest : CanonKeys rest := fun q hq => hcanon q (List.mem_cons_of_mem _ hq)
      have hne : ∀ it ∈ rest.map Prod.snd, opinionIdStr it ≠ k := by
        intro it hit
        obtain ⟨q, hq, rfl⟩ := List.mem_map.mp hit
        rw [← hrest q hq]
        intro hqk
        exact hnd.1 (hqk ▸ List.mem_map_of_mem Prod.fst hq)
      show loadManifest (v :: rest.map Prod.snd) = (k, v) :: rest
      rw [loadManifest, List.foldl_cons]
      have h0 : dictInsert [] (opinionIdStr v) v = [(k, v)] := by
        rw [dictInsert, hkv]
      rw [h0]
      show List.foldl (fun m it => dictInsert m (opinionIdStr it) it) [(k, v)]
          (rest.map Prod.snd) = (k, v) :: rest
      rw [foldl_insert_cons k v (rest.map Prod.snd) [] hne]
      exact congrArg _ (ih hnd.2 hrest)

theorem syncStep_skip (fetchOk : ℕ → Bool) (st : SyncState) (i : ℕ) (op : OpinionMeta)
    (h : opinionIdStr op ∈ st.files) :
    syncStep fetchOk st (i, op)
      = { st with
          skipped := st.skipped + 1
          manifest :=
            if (dictLookup st.manifest (opinionIdStr op)).isSome then st.manifest
            else dictInsert st.manifest (opinionIdStr op) op
          classes := st.classes ++ [.skippedC] } := by
  simp [syncStep, h]

theorem syncStep_download (fetchOk : ℕ → Bool) (st : SyncState) (i : ℕ)
    (op : OpinionMeta) (h : opinionIdStr op ∉ st.files) (hok : fetchOk i = true) :
    syncStep fetchOk st (i, op)
      = { st with
          files := st.files ++ [opinionIdStr op]
          downloaded := st.downloaded + 1
          manifest := dictInsert st.manifest (opinionIdStr op) op
          classes := st.classes ++ [.downloadedC] } := by
  simp [syncStep, h, download_pdf, hok]

theorem syncStep_fail (fetchOk : ℕ → Bool) (st : SyncState) (i : ℕ)
    (op : OpinionMeta) (h : opinionIdStr op ∉ st.files) (hok : fetchOk i = false) :
    syncStep fetchOk st (i, op)
      = { st with
          failed := st.failed + 1
          classes := st.classes ++ [.failedC] } := by
  simp [syncStep, h, download_pdf, hok]

theorem syncGo_append (fetchOk : ℕ → Bool) :
    ∀ (xs ys : List OpinionMeta) (i : ℕ) (st : SyncState),
      syncGo fetchOk (xs ++ ys) i st
        = syncGo fetchOk ys (i + xs.length) (syncGo fetchOk xs i st) := by
  intro xs
  induction xs with
  | nil => intro ys i st; simp [syncGo]
  | cons x rest ih =>
      intro ys i st
      have hstep : syncGo fetchOk ((x :: rest) ++ ys) i st
          = syncGo fetchOk (rest ++ ys) (i + 1) (syncStep fetchOk st (i, x)) := rfl
      rw [hstep, ih ys (i + 1) (syncStep fetchOk st (i, x))]
      have hidx : i + 1 + rest.length = i + (x :: rest).length := by
        simp
        omega
      rw [hidx]
      rfl

theorem syncStep_files_mono (fetchOk : ℕ → Bool) (st : SyncState) (p : ℕ × OpinionMeta)
    {x : String} (h : x ∈ st.files) : x ∈ (syncStep fetchOk st p).files := by
  obtain ⟨i, op⟩ := p
  by_cases hf : opinionIdStr op ∈ st.files
  · rw [syncStep_skip fetchOk st i op hf]
    exact h
  · cases hok : fetchOk i
    · rw [syncStep_fail fetchOk st i op hf hok]
      exact h
    · rw [syncStep_download fetchOk st i op hf hok]
      exact List.mem_append_left _ h

theorem syncGo_files_mono (fetchOk : ℕ → Bool) :
    ∀ (ops : List OpinionMeta) (i : ℕ) (st : SyncState) {x : String},
      x ∈ st.files → x ∈ (syncGo fetchOk ops i st).files := by
  intro ops
  induction ops with
  | nil => intro i st x h; exact h
  | cons op rest ih =>
      intro i st x h
      exact ih (i + 1) _ (syncStep_files_mono fetchOk st (i, op) h)

theorem syncStep_lookup_mono (fetchOk : ℕ → Bool) (st : SyncState) (p : ℕ × OpinionMeta)
    {x : String} (h : (dictLookup st.manifest x).isSome) :
    (dictLookup (syncStep fetchOk st p).manifest x).isSome := by
  obtain ⟨i, op⟩ := p
  by_cases hf : opinionIdStr op ∈ st.files
  · rw [syncStep_skip fetchOk st i op hf]
    by_cases hl : (dictLookup st.manifest (opinionIdStr op)).isSome
    · simpa [hl] using h
    · show (dictLookup (if (dictLookup st.manifest (opinionIdStr op)).isSome
          then st.manifest else dictInsert st.manifest (opinionIdStr op) op) x).isSome
      rw [if_neg hl, dictLookup_insert]
      by_cases hx : opinionIdStr op = x
      · simp [hx]
      · simpa [hx] using h
  · cases hok : fetchOk i
    · rw [syncStep_fail fetchOk st i op hf hok]
      exact h
    · rw [syncStep_download fetchOk st i op hf hok]
      show (dictLookup (dictInsert st.manifest (opinionIdStr op) op) x).isSome
      rw [dictLookup_insert]
      by_cases hx : opinionIdStr op = x
      · simp [hx]
      · simpa [hx] using h

theorem syncGo_lookup_mono (fetchOk : ℕ → Bool) :
    ∀ (ops : List OpinionMeta) (i : ℕ) (st : SyncState) {x : String},
      (dictLookup st.manifest x).isSome →
      (dictLookup (syncGo fetchOk ops i st).manifest x).isSome := by
  intro ops
  induction ops with
  | nil => intro i st x h; exact h
  | cons op rest ih =>
      intro i st x h
      exact ih (i + 1) _ (syncStep_lookup_mono fetchOk st (i, op) h)

theorem syncStep_failed_mono (fetchOk : ℕ → Bool) (st : SyncState)
    (p : ℕ × OpinionMeta) : st.failed ≤ (syncStep fetchOk st p).failed := by
  obtain ⟨i, op⟩ := p
  by_cases hf : opinionIdStr op ∈ st.files
  · rw [syncStep_skip fetchOk st i op hf]
  · cases hok : fetchOk i
    · rw [syncStep_fail fetchOk st i op hf hok]
      exact Nat.le_succ _
    · rw [syncStep_download fetchOk st i op hf hok]

theorem syncGo_failed_mono (fetchOk : ℕ → Bool) :
    ∀ (ops : List OpinionMeta) (i : ℕ) (st : SyncState),
      st.failed ≤ (syncGo fetchOk ops i st).failed := by
  intro ops
  induction ops with
  | nil => intro i st; exact le_refl _
  | cons op rest ih =>
      intro i st
      exact le_trans (syncStep_failed_mono fetchOk st (i, op)) (ih (i + 1) _)

theorem syncStep_nodup (fetchOk : ℕ → Bool) (st : SyncState) (p : ℕ × OpinionMeta)
    (h : (dictKeys st.manifest).Nodup) :
    (dictKeys (syncStep fetchOk st p).manifest).Nodup := by
  obtain ⟨i, op⟩ := p
  by_cases hf : opinionIdStr op ∈ st.files
  · rw [syncStep_skip fetchOk st i op hf]
    by_cases hl : (dictLookup st.manifest (opinionIdStr op)).isSome
    · simpa [hl] using h
    · show (dictKeys (if (dictLookup st.manifest (opinionIdStr op)).isSome
          then st.manifest else dictInsert st.manifest (opinionIdStr op) op)).Nodup
      rw [if_neg hl]
      exact dictKeys_nodup_insert _ _ _ h
  · cases hok : fetchOk i
    · rw [syncStep_fail fetchOk st i op hf hok]
      exact h
    · rw [syncStep_download fetchOk st i op hf hok]
      exact dictKeys_nodup_insert _ _ _ h

theorem syncGo_nodup (fetchOk : ℕ → Bool) :
    ∀ (ops : List OpinionMeta) (i : ℕ) (st : SyncState),
      (dictKeys st.manifest).Nodup →
      (dictKeys (syncGo fetchOk ops i st).manifest).Nodup := by
  intro ops
  induction ops with
  | nil => intro i st h; exact h
  | cons op rest ih =>
      intro i st h
      exact ih (i + 1) _ (syncStep_nodup fetchOk st (i, op) h)

theorem syncStep_canon (fetchOk : ℕ → Bool) (st : SyncState) (p : ℕ × OpinionMeta)
    (h : CanonKeys st.manifest) : CanonKeys (syncStep fetchOk st p).manifest := by
  obtain ⟨i, op⟩ := p
  by_cases hf : opinionIdStr op ∈ st.files
  · rw [syncStep_skip fetchOk st i op hf]
    by_cases hl : (dictLookup st.manifest (opinionIdStr op)).isSome
    · simpa [hl] using h
    · show CanonKeys (if (dictLookup st.manifest (opinionIdStr op)).isSome
          then st.manifest else dictInsert st.manifest (opinionIdStr op) op)
      rw [if_neg hl]
      exact canonKeys_insert h op
  · cases hok : fetchOk i
    · rw [syncStep_fail fetchOk st i op hf hok]
      exact h
    · rw [syncStep_download fetchOk st i op hf hok]
      exact canonKeys_insert h op

theorem syncGo_canon (fetchOk : ℕ → Bool) :
    ∀ (ops : List OpinionMeta) (i : ℕ) (st : SyncState),
      CanonKeys st.manifest → CanonKeys (syncGo fetchOk ops i st).manifest := by
  intro ops
  induction ops with
  | nil => intro i st h; exact h
  | cons op rest ih =>
      intro i st h
      exact ih (i + 1) _ (syncStep_canon fetchOk st (i, op) h)

theorem syncStep_classes (fetchOk : ℕ → Bool) (st : SyncState) (p : ℕ × OpinionMeta) :
    ∃ c, (syncStep fetchOk st p).classes = st.classes ++ [c] := by
  obtain ⟨i, op⟩ := p
  by_cases hf : opinionIdStr op ∈ st.files
  · exact ⟨.skippedC, by rw [syncStep_skip fetchOk st i op hf]⟩
  · cases hok : fetchOk i
    · exact ⟨.failedC, by rw [syncStep_fail fetchOk st i op hf hok]⟩
    · exact ⟨.downloadedC, by rw [syncStep_download fetchOk st i op hf hok]⟩

theorem syncGo_classes_ext (fetchOk : ℕ → Bool) :
    ∀ (ops : List OpinionMeta) (i : ℕ) (st : SyncState),
      ∃ t, (syncGo fetchOk ops i st).classes = st.classes ++ t ∧
        t.length = ops.length := by
  intro ops
  induction ops with
  | nil => intro i st; exact ⟨[], by simp [syncGo]⟩
  | cons op rest ih =>
      intro i st
      obtain ⟨c, hc⟩ := syncStep_classes fetchOk st (i, op)
      obtain ⟨t, ht, hlen⟩ := ih (i + 1) (syncStep fetchOk st (i, op))
      refine ⟨c :: t, ?_, by simp [hlen]⟩
      show (syncGo fetchOk rest (i + 1) (syncStep fetchOk st (i, op))).classes = _
      rw [ht, hc]
      simp

theorem dictLookup_eq_some_mem :
    ∀ (m : List (String × OpinionMeta)) (x : String) (v : OpinionMeta),
      dictLookup m x = some v → (x, v) ∈ m := by
  intro m
  induction m with
  | nil => intro x v h; simp [dictLookup] at h
  | cons p rest ih =>
      obtain ⟨k', v'⟩ := p
      intro x v h
      by_cases hk : k' = x
      · subst hk
        simp [dictLookup] at h
        subst h
        exact List.mem_cons_self _ _
      · rw [dictLookup, if_neg hk] at h
        exact List.mem_cons_of_mem _ (ih x v h)

theorem syncStep_skip_lookup (fetchOk : ℕ → Bool) (st : SyncState) (i : ℕ)
    (op : OpinionMeta) (hf : opinionIdStr op ∈ st.files) :
    (dictLookup (syncStep fetchOk st (i, op)).manifest (opinionIdStr op)).isSome := by
  rw [syncStep_skip fetchOk st i op hf]
  by_cases hl : (dictLookup st.manifest (opinionIdStr op)).isSome
  · simpa [hl] using hl
  · show (dictLookup (if (dictLookup st.manifest (opinionIdStr op)).isSome
        then st.manifest else dictInsert st.manifest (opinionIdStr op) op)
        (opinionIdStr op)).isSome
    rw [if_neg hl, dictLookup_insert, if_pos rfl]
    rfl

theorem syncStep_download_lookup (fetchOk : ℕ → Bool) (st : SyncState) (i : ℕ)
    (op : OpinionMeta) (hf : opinionIdStr op ∉ st.files) (hok : fetchOk i = true) :
    dictLookup (syncStep fetchOk st (i, op)).manifest (opinionIdStr op) = some op := by
  rw [syncStep_download fetchOk st i op hf hok]
  show dictLookup (dictInsert st.manifest (opinionIdStr op) op) (opinionIdStr op) = some op
  rw [dictLookup_insert, if_pos rfl]

theorem syncGo_noFail_files (fetchOk : ℕ → Bool) :
    ∀ (ops : List OpinionMeta) (i : ℕ) (st : SyncState),
      (syncGo fetchOk ops i st).failed = st.failed →
      ∀ op ∈ ops, opinionIdStr op ∈ (syncGo fetchOk ops i st).files := by
  intro ops
  induction ops with
  | nil => intro i st _ op hop; exact absurd hop (List.not_mem_nil op)
  | cons op0 rest ih =>
      intro i st hfail op hop
      have hgo : syncGo fetchOk (op0 :: rest) i st
          = syncGo fetchOk rest (i + 1) (syncStep fetchOk st (i, op0)) := rfl
      rw [hgo] at hfail ⊢
      have hstep_eq : (syncStep fetchOk st (i, op0)).failed = st.failed := by
        have h1 := syncStep_failed_mono fetchOk st (i, op0)
        have h2 := syncGo_failed_mono fetchOk rest (i + 1) (syncStep fetchOk st (i, op0))
        omega
      have hmem0 : opinionIdStr op0 ∈ (syncStep fetchOk st (i, op0)).files := by
        by_cases hf : opinionIdStr op0 ∈ st.files
        · exact syncStep_files_mono fetchOk st (i, op0) hf
        · cases hok : fetchOk i
          · exfalso
            rw [syncStep_fail fetchOk st i op0 hf hok] at hstep_eq
            simp at hstep_eq
          · rw [syncStep_download fetchOk st i op0 hf hok]
            simp
      rcases List.mem_cons.mp hop with h | h
      · subst h
        exact syncGo_files_mono fetchOk rest (i + 1) _ hmem0
      · exact ih (i + 1) _ (by omega) op h

theorem syncGo_noFail_lookup (fetchOk : ℕ → Bool) :
    ∀ (ops : List OpinionMeta) (i : ℕ) (st : SyncState),
      (syncGo fetchOk ops i st).failed = st.failed →
      ∀ op ∈ ops,
        (dictLookup (syncGo fetchOk ops i st).manifest (opinionIdStr op)).isSome := by
  intro ops
  induction ops with
  | nil => intro i st _ op hop; exact absurd hop (List.not_mem_nil op)
  | cons op0 rest ih =>
      intro i st hfail op hop
      have hgo : syncGo fetchOk (op0 :: rest) i st
          = syncGo fetchOk rest (i + 1) (syncStep fetchOk st (i, op0)) := rfl
      rw [hgo] at hfail ⊢
      have hstep_eq : (syncStep fetchOk st (i, op0)).failed = st.failed := by
        have h1 := syncStep_failed_mono fetchOk st (i, op0)
        have h2 := syncGo_failed_mono fetchOk rest (i + 1) (syncStep fetchOk st (i, op0))
        omega
      have hsome0 : (dictLookup (syncStep fetchOk st (i, op0)).manifest
          (opinionIdStr op0)).isSome := by
        by_cases hf : opinionIdStr op0 ∈ st.files
        · exact syncStep_skip_lookup fetchOk st i op0 hf
        · cases hok : fetchOk i
          · exfalso
            rw [syncStep_fail fetchOk st i op0 hf hok] at hstep_eq
            simp at hstep_eq
          · rw [syncStep_download_lookup fetchOk st i op0 hf hok]
            rfl
      rcases List.mem_cons.mp hop with h | h
      · subst h
        exact syncGo_lookup_mono fetchOk rest (i + 1) _ hsome0
      · exact ih (i + 1) _ (by omega) op h

theorem syncGo_all_skip (fetchOk : ℕ → Bool) :
    ∀ (ops : List OpinionMeta) (i : ℕ) (st : SyncState),
      (∀ op ∈ ops, opinionIdStr op ∈ st.files ∧
        (dictLookup st.manifest (opinionIdStr op)).isSome) →
      syncGo fetchOk ops i st
        = { st with
            skipped := st.skipped + ops.length
            classes := st.classes ++ List.replicate ops.length .skippedC } := by
  intro ops
  induction ops with
  | nil => intro i st _; simp [syncGo]
  | cons op rest ih =>
      intro i st hall
      obtain ⟨hf, hl⟩ := hall op (List.mem_cons_self _ _)
      have hstep : syncStep fetchOk st (i, op)
          = { st with
              skipped := st.skipped + 1
              classes := st.classes ++ [.skippedC] } := by
        rw [syncStep_skip fetchOk st i op hf, if_pos hl]
      have hpre : ∀ op' ∈ rest,
          opinionIdStr op' ∈ (syncStep fetchOk st (i, op)).files ∧
            (dictLookup (syncStep fetchOk st (i, op)).manifest (opinionIdStr op')).isSome := by
        intro op' hop'
        rw [hstep]
        exact hall op' (List.mem_cons_of_mem _ hop')
      show syncGo fetchOk rest (i + 1) (syncStep fetchOk st (i, op)) = _
      rw [ih (i + 1) _ hpre, hstep]
      have h1 : st.skipped + 1 + rest.length = st.skipped + (op :: rest).length := by
        simp
        omega
      have h2 : (st.classes ++ [SyncClass.skippedC])
            ++ List.replicate rest.length SyncClass.skippedC
          = st.classes ++ List.replicate (op :: rest).length SyncClass.skippedC := by
        simp [List.replicate_succ]
      show ({ st with
          skipped := st.skipped + 1 + rest.length
          classes := (st.classes ++ [SyncClass.skippedC])
            ++ List.replicate rest.length SyncClass.skippedC } : SyncState) = _
      rw [h1, h2]

theorem syncGo_files_have_entries (fetchOk : ℕ → Bool) :
    ∀ (ops : List OpinionMeta) (i : ℕ) (st : SyncState),
      (∀ x ∈ st.files, (dictLookup st.manifest x).isSome ∨
        ∃ op ∈ ops, opinionIdStr op = x) →
      ∀ x ∈ (syncGo fetchOk ops i st).files,
        (dictLookup (syncGo fetchOk ops i st).manifest x).isSome := by
  intro ops
  induction ops with
  | nil =>
      intro i st hpre x hx
      rcases hpre x hx with h | h
      · exact h
      · obtain ⟨op, hop, _⟩ := h
        exact absurd hop (List.not_mem_nil op)
  | cons op0 rest ih =>
      intro i st hpre x hx
      have hgo : syncGo fetchOk (op0 :: rest) i st
          = syncGo fetchOk rest (i + 1) (syncStep fetchOk st (i, op0)) := rfl
      rw [hgo] at hx ⊢
      refine ih (i + 1) (syncStep fetchOk st (i, op0)) ?_ x hx
      intro y hy
      by_cases hf : opinionIdStr op0 ∈ st.files
      · have hyfiles : y ∈ st.files := by
          rw [syncStep_skip fetchOk st i op0 hf] at hy
          exact hy
        rcases hpre y hyfiles with h | h
        · exact Or.inl (syncStep_lookup_mono fetchOk st (i, op0) h)
        · obtain ⟨op', hop', hid⟩ := h
          rcases List.mem_cons.mp hop' with h0 | h0
          · subst h0
            subst hid
            exact Or.inl (syncStep_skip_lookup fetchOk st i op' hf)
          · exact Or.inr ⟨op', h0, hid⟩
      · cases hok : fetchOk i
        · have hyfiles : y ∈ st.files := by
            rw [syncStep_fail fetchOk st i op0 hf hok] at hy
            exact hy
          rcases hpre y hyfiles with h | h
          · exact Or.inl (syncStep_lookup_mono fetchOk st (i, op0) h)
          · obtain ⟨op', hop', hid⟩ := h
            rcases List.mem_cons.mp hop' with h0 | h0
            · subst h0
              exact absurd (hid ▸ hyfiles) hf
            · exact Or.inr ⟨op', h0, hid⟩
        · have hyfiles : y ∈ st.files ++ [opinionIdStr op0] := by
            rw [syncStep_download fetchOk st i op0 hf hok] at hy
            exact hy
          rcases List.mem_append.mp hyfiles with hyf | hy0
          · rcases hpre y hyf with h | h
            · exact Or.inl (syncStep_lookup_mono fetchOk st (i, op0) h)
            · obtain ⟨op', hop', hid⟩ := h
              rcases List.mem_cons.mp hop' with h0 | h0
              · subst h0
                subst hid
                exact Or.inl (by rw [syncStep_download_lookup fetchOk st i op' hf hok]; rfl)
              · exact Or.inr ⟨op', h0, hid⟩
          · have hy0 : y = opinionIdStr op0 := by simpa using hy0
            subst hy0
            exact Or.inl (by rw [syncStep_download_lookup fetchOk st i op0 hf hok]; rfl)

theorem stateAfter_succ (fetchOk : ℕ → Bool) (ops : List OpinionMeta) (k : ℕ)
    (op : OpinionMeta) (init : SyncState) (hk : ops.get? k = some op) :
    syncGo fetchOk (ops.take (k + 1)) 0 init
      = syncStep fetchOk (syncGo fetchOk (ops.take k) 0 init) (k, op) := by
  have hklen : k < ops.length := List.get?_eq_some.mp hk |>.1
  have hk' : ops[k]? = some op := by
    rw [← List.get?_eq_getElem?]
    exact hk
  have htake : ops.take (k + 1) = ops.take k ++ [op] := by
    rw [List.take_succ, hk']
    rfl
  rw [htake, syncGo_append]
  have hlen : (ops.take k).length = k := by
    simp [List.length_take]
    omega
  rw [hlen, Nat.zero_add]
  rfl

theorem final_from_stateAfter (fetchOk : ℕ → Bool) (ops : List OpinionMeta) (k : ℕ)
    (init : SyncState) (hk : k ≤ ops.length) :
    syncGo fetchOk ops 0 init
      = syncGo fetchOk (ops.drop k) k (syncGo fetchOk (ops.take k) 0 init) := by
  conv_lhs => rw [← List.take_append_drop k ops]
  rw [syncGo_append]
  have hlen : (ops.take k).length = k := by
    simp [List.length_take]
    omega
  rw [hlen, Nat.zero_add]

theorem stateAfter_classes_len (fetchOk : ℕ → Bool) (ops : List OpinionMeta) (k : ℕ)
    (files0 : List String) (loaded : Option SavedMetadata) (hk : k ≤ ops.length) :
    (syncGo fetchOk (ops.take k) 0 (initState files0 loaded)).classes.length = k := by
  obtain ⟨t, ht, hlen⟩ := syncGo_classes_ext fetchOk (ops.take k) 0 (initState files0 loaded)
  rw [ht]
  have : (initState files0 loaded).classes = [] := rfl
  rw [this]
  simp [hlen, List.length_take]
  omega

theorem download_corpus_fst (corpus query : String) (court : Option String)
    (f : ℕ → Bool) (ops : List OpinionMeta) (files0 : List String)
    (loaded : Option SavedMetadata) :
    (download_corpus corpus query court f ops files0 loaded).1
      = syncGo f ops 0 (initState files0 loaded) := rfl

theorem download_corpus_snd (corpus query : String) (court : Option String)
    (f : ℕ → Bool) (ops : List OpinionMeta) (files0 : List String)
    (loaded : Option SavedMetadata) :
    (download_corpus corpus query court f ops files0 loaded).2
      = mkSaved corpus query court (syncGo f ops 0 (initState files0 loaded)) := rfl

theorem initState_nodup (files0 : List String) (loaded : Option SavedMetadata) :
    (dictKeys (initState files0 loaded).manifest).Nodup := by
  cases loaded with
  | none => simp [initState, dictKeys]
  | some md => exact loadManifest_nodup md.opinions

theorem initState_canon (files0 : List String) (loaded : Option SavedMetadata) :
    CanonKeys (initState files0 loaded).manifest := by
  cases loaded with
  | none => intro p hp; exact absurd hp (List.not_mem_nil p)
  | some md => exact loadManifest_canon md.opinions

theorem mkSaved_congr (corpus query : String) (court : Option String)
    {st st' : SyncState} (h : st.manifest = st'.manifest) :
    mkSaved corpus query court st = mkSaved corpus query court st' := by
  unfold mkSaved
  rw [h]

/-- Core of the C4 idempotence argument, stated over the loop and store
primitives: if the first run had no failures, a second run over the same
descriptors on the resulting corpus directory downloads nothing, fails
nothing, skips everything, leaves the files unchanged and writes the same
metadata. -/
theorem c4_core (corpus query : String) (court : Option String)
    (f1 f2 : ℕ → Bool) (ops : List OpinionMeta) (files0 : List String)
    (loaded0 : Option SavedMetadata)
    (hnofail : (syncGo f1 ops 0 (initState files0 loaded0)).failed = 0) :
    (syncGo f2 ops 0 (initState (syncGo f1 ops 0 (initState files0 loaded0)).files
        (some (mkSaved corpus query court
          (syncGo f1 ops 0 (initState files0 loaded0)))))).downloaded = 0 ∧
    (syncGo f2 ops 0 (initState (syncGo f1 ops 0 (initState files0 loaded0)).files
        (some (mkSaved corpus query court
          (syncGo f1 ops 0 (initState files0 loaded0)))))).failed = 0 ∧
    (syncGo f2 ops 0 (initState (syncGo f1 ops 0 (initState files0 loaded0)).files
        (some (mkSaved corpus query court
          (syncGo f1 ops 0 (initState files0 loaded0)))))).skipped = ops.length ∧
    (syncGo f2 ops 0 (initState (syncGo f1 ops 0 (initState files0 loaded0)).files
        (some (mkSaved corpus query court
          (syncGo f1 ops 0 (initState files0 loaded0)))))).files
      = (syncGo f1 ops 0 (initState files0 loaded0)).files ∧
    mkSaved corpus query court
        (syncGo f2 ops 0 (initState (syncGo f1 ops 0 (initState files0 loaded0)).files
          (some (mkSaved corpus query court (syncGo f1 ops 0 (initState files0 loaded0))))))
      = mkSaved corpus query court (syncGo f1 ops 0 (initState files0 loaded0)) := by
  have hfail1 : (syncGo f1 ops 0 (initState files0 loaded0)).failed
      = (initState files0 loaded0).failed := hnofail
  have hfiles1 := syncGo_noFail_files f1 ops 0 (initState files0 loaded0) hfail1
  have hlook1 := syncGo_noFail_lookup f1 ops 0 (initState files0 loaded0) hfail1
  have hnd1 : (dictKeys (syncGo f1 ops 0 (initState files0 loaded0)).manifest).Nodup :=
    syncGo_nodup f1 ops 0 _ (initState_nodup files0 loaded0)
  have hcn1 : CanonKeys (syncGo f1 ops 0 (initState files0 loaded0)).manifest :=
    syncGo_canon f1 ops 0 _ (initState_canon files0 loaded0)
  have hinit2 : (initState (syncGo f1 ops 0 (initState files0 loaded0)).files
        (some (mkSaved corpus query court
          (syncGo f1 ops 0 (initState files0 loaded0))))).manifest
      = (syncGo f1 ops 0 (initState files0 loaded0)).manifest := by
    show loadManifest
        ((syncGo f1 ops 0 (initState files0 loaded0)).manifest.map Prod.snd) = _
    exact loadManifest_roundtrip _ hnd1 hcn1
  have hall : ∀ op ∈ ops,
      opinionIdStr op ∈ (initState (syncGo f1 ops 0 (initState files0 loaded0)).files
          (some (mkSaved corpus query court
            (syncGo f1 ops 0 (initState files0 loaded0))))).files ∧
        (dictLookup (initState (syncGo f1 ops 0 (initState files0 loaded0)).files
          (some (mkSaved corpus query court
            (syncGo f1 ops 0 (initState files0 loaded0))))).manifest
          (opinionIdStr op)).isSome := by
    intro op hop
    rw [hinit2]
    exact ⟨hfiles1 op hop, hlook1 op hop⟩
  have hrun2 := syncGo_all_skip f2 ops 0 _ hall
  have hdl : (syncGo f2 ops 0 (initState (syncGo f1 ops 0 (initState files0 loaded0)).files
      (some (mkSaved corpus query court
        (syncGo f1 ops 0 (initState files0 loaded0)))))).downloaded = 0 := by
    rw [hrun2]
    rfl
  have hfl : (syncGo f2 ops 0 (initState (syncGo f1 ops 0 (initState files0 loaded0)).files
      (some (mkSaved corpus query court
        (syncGo f1 ops 0 (initState files0 loaded0)))))).failed = 0 := by
    rw [hrun2]
    rfl
  have hsk : (syncGo f2 ops 0 (initState (syncGo f1 ops 0 (initState files0 loaded0)).files
      (some (mkSaved corpus query court
        (syncGo f1 ops 0 (initState files0 loaded0)))))).skipped = ops.length := by
    rw [hrun2]
    show 0 + ops.length = ops.length
    omega
  have hfi : (syncGo f2 ops 0 (initState (syncGo f1 ops 0 (initState files0 loaded0)).files
      (some (mkSaved corpus query court
        (syncGo f1 ops 0 (initState files0 loaded0)))))).files
      = (syncGo f1 ops 0 (initState files0 loaded0)).files := by
    rw [hrun2]
    rfl
  have hman2 : (syncGo f2 ops 0 (initState (syncGo f1 ops 0 (initState files0 loaded0)).files
      (some (mkSaved corpus query court
        (syncGo f1 ops 0 (initState files0 loaded0)))))).manifest
      = (syncGo f1 ops 0 (initState files0 loaded0)).manifest := by
    rw [hrun2]
    exact hinit2
  refine ⟨hdl, hfl, hsk, hfi, ?_⟩
  exact mkSaved_congr corpus query court hman2

/-- C4 amended: provided the first run had no failed artifact, running
`download_corpus` again with identical search results on the same corpus
directory performs zero downloads (and zero failures) — every artifact is
classified as skipped — and the metadata written by the second run equals
the first run's. -/
theorem c4_amended (corpus query : String) (court : Option String)
    (f1 f2 : ℕ → Bool) (ops : List OpinionMeta) (files0 : List String)
    (loaded0 : Option SavedMetadata)
    (hnofail : (download_corpus corpus query court f1 ops files0 loaded0).1.failed = 0) :
    (download_corpus corpus query court f2 ops
        (download_corpus corpus query court f1 ops files0 loaded0).1.files
        (some (download_corpus corpus query court f1 ops files0 loaded0).2)).1.downloaded
      = 0 ∧
    (download_corpus corpus query court f2 ops
        (download_corpus corpus query court f1 ops files0 loaded0).1.files
        (some (download_corpus corpus query court f1 ops files0 loaded0).2)).1.failed
      = 0 ∧
    (download_corpus corpus query court f2 ops
        (download_corpus corpus query court f1 ops files0 loaded0).1.files
        (some (download_corpus corpus query court f1 ops files0 loaded0).2)).1.skipped
      = ops.length ∧
    (download_corpus corpus query court f2 ops
        (download_corpus corpus query court f1 ops files0 loaded0).1.files
        (some (download_corpus corpus query court f1 ops files0 loaded0).2)).1.files
      = (download_corpus corpus query court f1 ops files0 loaded0).1.files ∧
    (download_corpus corpus query court f2 ops
        (download_corpus corpus query court f1 ops files0 loaded0).1.files
        (some (download_corpus corpus query court f1 ops files0 loaded0).2)).2
      = (download_corpus corpus query court f1 ops files0 loaded0).2 :=
  c4_core corpus query court f1 f2 ops files0 loaded0 hnofail

/-- Descriptor for the C4 counterexample. -/
def c4op : OpinionMeta :=
  { cluster_id := none
    case_name := some "A v. B"
    court := none
    court_id := none
    date_filed := none
    docket_number := none
    citations := []
    opinion_id := none
    local_path := "pdf/a.pdf"
    download_url := none
    opinion_type := none }

/-- Fetch oracle: every download fails. -/
def c4f1 : ℕ → Bool := fun _ => false

/-- Fetch oracle: every download succeeds. -/
def c4f2 : ℕ → Bool := fun _ => true

/-- C4 counterexample.  With one artifact whose download fails in run 1
(`failed = 1`, no file written, no manifest entry), a second run with
identical search results re-fetches it: `downloaded = 1 ≠ 0` and the saved
metadata differs from run 1's.  The claim, quantifying over all runs,
is therefore false; failed artifacts are deliberately retried. -/
theorem c4_counterexample :
    (download_corpus "c" "q" none c4f1 [c4op] [] none).1.failed = 1 ∧
    (download_corpus "c" "q" none c4f2 [c4op]
        (download_corpus "c" "q" none c4f1 [c4op] [] none).1.files
        (some (download_corpus "c" "q" none c4f1 [c4op] [] none).2)).1.downloaded = 1 ∧
    (download_corpus "c" "q" none c4f2 [c4op]
        (download_corpus "c" "q" none c4f1 [c4op] [] none).1.files
        (some (download_corpus "c" "q" none c4f1 [c4op] [] none).2)).2
      ≠ (download_corpus "c" "q" none c4f1 [c4op] [] none).2 := by
  decide

/-- Descriptor for the C4 witness. -/
def c4wop : OpinionMeta :=
  { cluster_id := some 7
    case_name := some "C v. D"
    court := none
    court_id := none
    date_filed := none
    docket_number := none
    citations := []
    opinion_id := some 12
    local_path := "pdf/b.pdf"
    download_url := none
    opinion_type := none }

/-- Witness for `c4_amended`: a run that downloads its single artifact,
then a second run that skips it and reproduces the metadata. -/
theorem c4_amended_witness :
    ((download_corpus "c" "q" none c4f2 [c4wop] [] none).1.failed = 0) ∧
      (download_corpus "c" "q" none c4f2 [c4wop]
          (download_corpus "c" "q" none c4f2 [c4wop] [] none).1.files
          (some (download_corpus "c" "q" none c4f2 [c4wop] [] none).2)).1.downloaded = 0 ∧
      (download_corpus "c" "q" none c4f2 [c4wop]
          (download_corpus "c" "q" none c4f2 [c4wop] [] none).1.files
          (some (download_corpus "c" "q" none c4f2 [c4wop] [] none).2)).1.skipped = 1 ∧
      (download_corpus "c" "q" none c4f2 [c4wop]
          (download_corpus "c" "q" none c4f2 [c4wop] [] none).1.files
          (some (download_corpus "c" "q" none c4f2 [c4wop] [] none).2)).2
        = (download_corpus "c" "q" none c4f2 [c4wop] [] none).2 := by
  have h := c4_amended "c" "q" none c4f2 c4f2 [c4wop] [] none (by decide)
  exact ⟨by decide, h.1, h.2.2.1, h.2.2.2.2⟩

/-- C5 amended.  (1) Throughout every run (after any prefix of the loop)
the manifest keys are distinct — at most one entry per `opinion_id`.
(2) An incoming descriptor overwrites the manifest entry for its id only
when its file is actually downloaded; when the file already exists the
existing entry is kept and the descriptor is added only if the id was
absent.  (3) If every initially present PDF either has a manifest entry or
its id occurs among the incoming descriptors, then at the end of the run
every PDF file in the opinions directory corresponds to exactly one
manifest entry. -/
theorem c5_amended (corpus query : String) (court : Option String) (f : ℕ → Bool)
    (ops : List OpinionMeta) (files0 : List String) (loaded : Option SavedMetadata) :
    (∀ k, (dictKeys (syncGo f (ops.take k) 0 (initState files0 loaded)).manifest).Nodup) ∧
    (∀ (st : SyncState) (i : ℕ) (op : OpinionMeta),
      (opinionIdStr op ∉ st.files → f i = true →
        dictLookup (syncStep f st (i, op)).manifest (opinionIdStr op) = some op) ∧
      (opinionIdStr op ∈ st.files →
        dictLookup (syncStep f st (i, op)).manifest (opinionIdStr op)
          = some ((dictLookup st.manifest (opinionIdStr op)).getD op))) ∧
    ((∀ x ∈ files0, (dictLookup (initState files0 loaded).manifest x).isSome ∨
        ∃ op ∈ ops, opinionIdStr op = x) →
      ∀ x ∈ (download_corpus corpus query court f ops files0 loaded).1.files,
        ((download_corpus corpus query court f ops files0 loaded).1.manifest.filter
          (fun p => p.1 == x)).length = 1) := by
  refine ⟨?_, ?_, ?_⟩
  · intro k
    exact syncGo_nodup f (ops.take k) 0 _ (initState_nodup files0 loaded)
  · intro st i op
    constructor
    · intro habs hok
      exact syncStep_download_lookup f st i op habs hok
    · intro hf
      rw [syncStep_skip f st i op hf]
      by_cases hl : (dictLookup st.manifest (opinionIdStr op)).isSome
      · obtain ⟨v, hv⟩ := Option.isSome_iff_exists.mp hl
        show dictLookup (if (dictLookup st.manifest (opinionIdStr op)).isSome
            then st.manifest else dictInsert st.manifest (opinionIdStr op) op)
            (opinionIdStr op) = _
        rw [if_pos hl, hv]
        rfl
      · show dictLookup (if (dictLookup st.manifest (opinionIdStr op)).isSome
            then st.manifest else dictInsert st.manifest (opinionIdStr op) op)
            (opinionIdStr op) = _
        rw [if_neg hl, dictLookup_insert, if_pos rfl]
        have hnone : dictLookup st.manifest (opinionIdStr op) = none :=
          Option.not_isSome_iff_eq_none.mp hl
        rw [hnone]
        rfl
  · intro hpre x hx
    have hsome := syncGo_files_have_entries f ops 0 (initState files0 loaded) hpre x hx
    have hnd := syncGo_nodup f ops 0 _ (initState_nodup files0 loaded)
    exact dictFilter_singleton _ x hnd hsome

/-- Stale manifest entry for the C5 counterexample. -/
def c5old : OpinionMeta :=
  { cluster_id := none
    case_name := some "Old Name"
    court := none
    court_id := none
    date_filed := none
    docket_number := none
    citations := []
    opinion_id := some 1
    local_path := "pdf/old.pdf"
    download_url := none
    opinion_type := none }

/-- Incoming descriptor with the same id but different fields. -/
def c5new : OpinionMeta :=
  { cluster_id := none
    case_name := some "New Name"
    court := none
    court_id := none
    date_filed := none
    docket_number := none
    citations := []
    opinion_id := some 1
    local_path := "pdf/new.pdf"
    download_url := none
    opinion_type := none }

/-- Loaded metadata containing the stale entry. -/
def c5loaded : SavedMetadata :=
  { corpus := "c"
    search_query := "q"
    court_filter := none
    total_opinions := 1
    opinions := [c5old] }

/-- C5 counterexample.  First, a descriptor whose id is already in the
loaded manifest and whose file exists on disk does not overwrite the
entry: the old record (different `case_name`/`local_path`) survives,
refuting "the merge overwrites that entry's fields with the incoming
descriptor".  Second, a stray PDF (`7.pdf`) on disk that no descriptor and
no manifest entry mentions ends the run with zero manifest entries,
refuting "every PDF file corresponds to exactly one entry". -/
theorem c5_counterexample :
    (dictLookup (download_corpus "c" "q" none c4f2 [c5new] ["1"]
        (some c5loaded)).1.manifest "1" = some c5old ∧ c5old ≠ c5new) ∧
    ("7" ∈ (download_corpus "c" "q" none c4f2 [] ["7"] none).1.files ∧
      ((download_corpus "c" "q" none c4f2 [] ["7"] none).1.manifest.filter
        (fun p => p.1 == "7")).length = 0) := by
  decide

/-- Witness for `c5_amended` on a one-descriptor run: distinct keys after
the run, a download that overwrites (installs) its entry, and the single
PDF `12.pdf` having exactly one manifest entry. -/
theorem c5_amended_witness :
    (dictKeys (syncGo c4f2 ([c4wop].take 1) 0 (initState [] none)).manifest).Nodup ∧
      dictLookup (syncStep c4f2 (initState [] none) (0, c4wop)).manifest
        (opinionIdStr c4wop) = some c4wop ∧
      "12" ∈ (download_corpus "c" "q" none c4f2 [c4wop] [] none).1.files ∧
      ((download_corpus "c" "q" none c4f2 [c4wop] [] none).1.manifest.filter
        (fun p => p.1 == "12")).length = 1 := by
  have h := c5_amended "c" "q" none c4f2 [c4wop] [] none
  refine ⟨h.1 1, ?_, by decide, ?_⟩
  · exact (h.2.1 (initState [] none) 0 c4wop).1 (by decide) rfl
  · exact h.2.2 (fun x hx => absurd hx (List.not_mem_nil x)) "12" (by decide)

/-- C7: a descriptor whose PDF already exists on disk when it is
processed is classified as skipped, and the saved manifest contains an
entry for its `opinion_id` — even when the loaded manifest lacked one
(self-healing). -/
theorem c7_skip_selfheal (corpus query : String) (court : Option String)
    (f : ℕ → Bool) (ops : List OpinionMeta) (files0 : List String)
    (loaded : Option SavedMetadata) (k : ℕ) (op : OpinionMeta)
    (hk : ops.get? k = some op)
    (hf : opinionIdStr op ∈ (syncGo f (ops.take k) 0 (initState files0 loaded)).files) :
    (download_corpus corpus query court f ops files0 loaded).1.classes.get? k
        = some .skippedC ∧
      (dictLookup (download_corpus corpus query court f ops files0 loaded).1.manifest
        (opinionIdStr op)).isSome ∧
      ∃ v ∈ (download_corpus corpus query court f ops files0 loaded).2.opinions,
        opinionIdStr v = opinionIdStr op := by
  have hklen : k < ops.length := List.get?_eq_some.mp hk |>.1
  have hfin : (download_corpus corpus query court f ops files0 loaded).1
      = syncGo f (ops.drop (k + 1)) (k + 1)
          (syncStep f (syncGo f (ops.take k) 0 (initState files0 loaded)) (k, op)) := by
    rw [download_corpus_fst,
      final_from_stateAfter f ops (k + 1) (initState files0 loaded) (by omega),
      stateAfter_succ f ops k op (initState files0 loaded) hk]
  have hstep := syncStep_skip f (syncGo f (ops.take k) 0 (initState files0 loaded)) k op hf
  have hlen : (syncGo f (ops.take k) 0 (initState files0 loaded)).classes.length = k :=
    stateAfter_classes_len f ops k files0 loaded (by omega)
  have hsome : (dictLookup (download_corpus corpus query court f ops files0 loaded).1.manifest
      (opinionIdStr op)).isSome := by
    rw [hfin]
    exact syncGo_lookup_mono f (ops.drop (k + 1)) (k + 1) _
      (syncStep_skip_lookup f _ k op hf)
  refine ⟨?_, hsome, ?_⟩
  · obtain ⟨t, ht, _⟩ := syncGo_classes_ext f (ops.drop (k + 1)) (k + 1)
      (syncStep f (syncGo f (ops.take k) 0 (initState files0 loaded)) (k, op))
    rw [hfin, ht]
    have hcl : (syncStep f (syncGo f (ops.take k) 0 (initState files0 loaded)) (k, op)).classes
        = (syncGo f (ops.take k) 0 (initState files0 loaded)).classes
          ++ [SyncClass.skippedC] := by
      rw [hstep]
    rw [hcl, List.append_assoc, List.get?_append_right (by omega)]
    rw [hlen]
    simp
  · obtain ⟨v, hv⟩ := Option.isSome_iff_exists.mp hsome
    have hcanon : CanonKeys (download_corpus corpus query court f ops files0 loaded).1.manifest := by
      rw [download_corpus_fst]
      exact syncGo_canon f ops 0 _ (initState_canon files0 loaded)
    have hmem := dictLookup_eq_some_mem _ _ _ hv
    refine ⟨v, ?_, ?_⟩
    · rw [download_corpus_snd]
      show v ∈ (syncGo f ops 0 (initState files0 loaded)).manifest.map Prod.snd
      rw [← download_corpus_fst corpus query court f ops files0 loaded]
      exact List.mem_map_of_mem Prod.snd hmem
    · exact (hcanon _ hmem).symm

/-- Descriptor for the C7/C9 witnesses (missing id renders as "None"). -/
def c7op : OpinionMeta :=
  { cluster_id := none
    case_name := some "E v. F"
    court := none
    court_id := none
    date_filed := none
    docket_number := none
    citations := []
    opinion_id := none
    local_path := "pdf/c.pdf"
    download_url := none
    opinion_type := none }

/-- Witness for `c7_skip_selfheal`: a file on disk with no loaded
manifest entry is skipped and an entry appears in the saved metadata. -/
theorem c7_witness :
    (([c7op] : List OpinionMeta).get? 0 = some c7op ∧
        opinionIdStr c7op ∈ (syncGo c4f1 ([c7op].take 0) 0
          (initState ["None"] none)).files) ∧
      (download_corpus "c" "q" none c4f1 [c7op] ["None"] none).1.classes.get? 0
        = some .skippedC ∧
      (dictLookup (download_corpus "c" "q" none c4f1 [c7op] ["None"] none).1.manifest
        (opinionIdStr c7op)).isSome ∧
      ∃ v ∈ (download_corpus "c" "q" none c4f1 [c7op] ["None"] none).2.opinions,
        opinionIdStr v = opinionIdStr c7op := by
  have h := c7_skip_selfheal "c" "q" none c4f1 [c7op] ["None"] none 0 c7op
    (by decide) (by decide)
  exact ⟨⟨by decide, by decide⟩, h.1, h.2.1, h.2.2⟩

/-- C9: when a download exhausts its retries, `download_pdf` returns
`False` and writes nothing (the disk state is unchanged — no partial
file), the loop counts that artifact as failed without touching the
manifest, and every remaining artifact is still processed (one
classification per incoming descriptor). -/
theorem c9_failed_download (corpus query : String) (court : Option String)
    (f : ℕ → Bool) (ops : List OpinionMeta) (files0 : List String)
    (loaded : Option SavedMetadata) (k : ℕ) (op : OpinionMeta)
    (hk : ops.get? k = some op)
    (habs : opinionIdStr op ∉ (syncGo f (ops.take k) 0 (initState files0 loaded)).files)
    (hfail : f k = false) :
    download_pdf (syncGo f (ops.take k) 0 (initState files0 loaded)).files false
        (opinionIdStr op)
      = (false, (syncGo f (ops.take k) 0 (initState files0 loaded)).files) ∧
    (syncGo f (ops.take (k + 1)) 0 (initState files0 loaded)).files
      = (syncGo f (ops.take k) 0 (initState files0 loaded)).files ∧
    (syncGo f (ops.take (k + 1)) 0 (initState files0 loaded)).manifest
      = (syncGo f (ops.take k) 0 (initState files0 loaded)).manifest ∧
    (syncGo f (ops.take (k + 1)) 0 (initState files0 loaded)).failed
      = (syncGo f (ops.take k) 0 (initState files0 loaded)).failed + 1 ∧
    (download_corpus corpus query court f ops files0 loaded).1.classes.get? k
      = some .failedC ∧
    (download_corpus corpus query court f ops files0 loaded).1.classes.length
      = ops.length := by
  have hklen : k < ops.length := List.get?_eq_some.mp hk |>.1
  have hsucc := stateAfter_succ f ops k op (initState files0 loaded) hk
  have hstep := syncStep_fail f (syncGo f (ops.take k) 0 (initState files0 loaded)) k op
    habs hfail
  have hlen : (syncGo f (ops.take k) 0 (initState files0 loaded)).classes.length = k :=
    stateAfter_classes_len f ops k files0 loaded (by omega)
  have hfin : (download_corpus corpus query court f ops files0 loaded).1
      = syncGo f (ops.drop (k + 1)) (k + 1)
          (syncStep f (syncGo f (ops.take k) 0 (initState files0 loaded)) (k, op)) := by
    rw [download_corpus_fst,
      final_from_stateAfter f ops (k + 1) (initState files0 loaded) (by omega), hsucc]
  refine ⟨by simp [download_pdf], ?_, ?_, ?_, ?_, ?_⟩
  · rw [hsucc, hstep]
  · rw [hsucc, hstep]
  · rw [hsucc, hstep]
  · obtain ⟨t, ht, _⟩ := syncGo_classes_ext f (ops.drop (k + 1)) (k + 1)
      (syncStep f (syncGo f (ops.take k) 0 (initState files0 loaded)) (k, op))
    rw [hfin, ht]
    have hcl : (syncStep f (syncGo f (ops.take k) 0 (initState files0 loaded)) (k, op)).classes
        = (syncGo f (ops.take k) 0 (initState files0 loaded)).classes
          ++ [SyncClass.failedC] := by
      rw [hstep]
    rw [hcl, List.append_assoc, List.get?_append_right (by omega)]
    rw [hlen]
    simp
  · obtain ⟨t, ht, htl⟩ := syncGo_classes_ext f ops 0 (initState files0 loaded)
    rw [download_corpus_fst, ht]
    have : (initState files0 loaded).classes = [] := rfl
    rw [this]
    simpa using htl

/-- Second descriptor for the C9 witness. -/
def c9op2 : OpinionMeta :=
  { cluster_id := none
    case_name := some "G v. H"
    court := none
    court_id := none
    date_filed := none
    docket_number := none
    citations := []
    opinion_id := some 3
    local_path := "pdf/d.pdf"
    download_url := none
    opinion_type := none }

/-- Fetch oracle for the C9 witness: only index 0 fails. -/
def c9f : ℕ → Bool := fun i => decide (i ≠ 0)

/-- Witness for `c9_failed_download`: the first of two artifacts fails,
leaves no file, is classified failed, and the second is still
downloaded. -/
theorem c9_witness :
    (([c7op, c9op2] : List OpinionMeta).get? 0 = some c7op ∧ c9f 0 = false ∧
        opinionIdStr c7op ∉ (syncGo c9f ([c7op, c9op2].take 0) 0
          (initState [] none)).files) ∧
      (syncGo c9f ([c7op, c9op2].take 1) 0 (initState [] none)).files
        = (syncGo c9f ([c7op, c9op2].take 0) 0 (initState [] none)).files ∧
      (syncGo c9f ([c7op, c9op2].take 1) 0 (initState [] none)).failed
        = (syncGo c9f ([c7op, c9op2].take 0) 0 (initState [] none)).failed + 1 ∧
      (download_corpus "c" "q" none c9f [c7op, c9op2] [] none).1.classes.get? 0
        = some .failedC ∧
      (download_corpus "c" "q" none c9f [c7op, c9op2] [] none).1.classes.length = 2 ∧
      (download_corpus "c" "q" none c9f [c7op, c9op2] [] none).1.classes
        = [.failedC, .downloadedC] := by
  have h := c9_failed_download "c" "q" none c9f [c7op, c9op2] [] none 0 c7op
    (by decide) (by decide) (by decide)
  exact ⟨⟨by decide, by decide, by decide⟩, h.2.1, h.2.2.2.1, h.2.2.2.2.1,
    h.2.2.2.2.2, by decide⟩

end DownloadOpinions
